import Mathlib

/-!
Shallow embedding of the session-capture core of `src/server.js` (the
"Chad 5401" service): the window aggregator `groupByTimeWindow`, the cwd
extractor `extractCwdFromContent`, the path router `parseRoutingFromCwd` /
`isHomePath`, the identity resolver `resolveProjectSlug`, and the per-window
part of the batch processor `processTranscripts`.

Modelling conventions:
* JS numbers that the code treats as integers (timestamps in ms, ports,
  counts) are modelled as `Int` / `Nat`; `Math.floor(x / W) * W` on such
  values is floor division, i.e. `Int.fdiv`.
* A nullable JS field is an `Option`; JS truthiness on it is explicit:
  `""`, `0`, `null` and `undefined` are falsy, everything else truthy.
* `Date.getTime()` of a timestamp string is represented by an already
  parsed millisecond value: `original_timestamp : Option Int` is `some ts`
  exactly when the record carries a (truthy) original timestamp.
* The regexes of the source are implemented as explicit scanners with
  JavaScript semantics (leftmost match, greedy quantifiers with
  backtracking); each scanner documents the regex it implements.
* Store calls are modelled by a `StoreEnv` of response functions; logger
  calls are no-ops; `String.length` stands for JS string length.
-/



/-! ### JS helper semantics -/

/-- JS `a || d` for a nullable string `a` (`""` and `null` are falsy). -/
def jsOrStr (a : Option String) (d : String) : String :=
  match a with
  | some s => if s = "" then d else s
  | none => d

/-- JS `a || null` for a nullable string `a`. -/
def jsOptStr (a : Option String) : Option String :=
  match a with
  | some s => if s = "" then none else some s
  | none => none

/-- JS `a || d` for a nullable number `a` (`0` and `null` are falsy). -/
def jsOrInt (a : Option Int) (d : Int) : Int :=
  match a with
  | some n => if n = 0 then d else n
  | none => d

/-- JS `a || null` for a nullable number `a`. -/
def jsOptInt (a : Option Int) : Option Int :=
  match a with
  | some n => if n = 0 then none else some n
  | none => none

/-- JS `a || b` for two nullable numbers (used for `resolved.port || window.team_port`). -/
def jsOrOptInt (a b : Option Int) : Option Int :=
  match a with
  | some n => if n = 0 then b else some n
  | none => b

/-- `pat` is a leading segment of `s` (character lists). -/
def chListStarts : List Char → List Char → Bool
  | [], _ => true
  | _ :: _, [] => false
  | a :: as, b :: bs => a = b && chListStarts as bs

/-- `pat` occurs somewhere in `s` (character lists). -/
def chListHas (pat : List Char) : List Char → Bool
  | [] => pat.isEmpty
  | c :: rest => chListStarts pat (c :: rest) || chListHas pat rest

/-- JS `hay.includes(pat)`. -/
def strIncludes (hay pat : String) : Bool :=
  chListHas pat.data hay.data

/-- JS `s.endsWith(pat)`. -/
def strEndsWith (s pat : String) : Bool :=
  chListStarts pat.data.reverse s.data.reverse

/-- JS `s.toLowerCase()` (per-character `Char.toLower`, like
`String.toLower`, but written over the character list so that it reduces). -/
def strToLower (s : String) : String := String.mk (s.data.map Char.toLower)

/-- JS `s.substring(0, n)` (like `String.take`, but over the character
list so that it reduces). -/
def strTake (s : String) (n : Nat) : String := String.mk (s.data.take n)

/-- Numeric value of a decimal digit character. -/
def digitVal (c : Char) : Nat := c.toNat - '0'.toNat

/-- JS `parseInt(s, 10)` restricted to all-digit strings (the only inputs
the source feeds it). -/
def parseDigitsNat (cs : List Char) : Nat :=
  cs.foldl (fun a c => a * 10 + digitVal c) 0

/-! ### Data model -/

/-- One row of `dev_transcripts_raw` as read by the processor. -/
structure RawRecord where
  id : Nat
  source_type : Option String
  session_file : Option String
  project_slug : Option String
  project_folder : Option String
  team_port : Option Int
  content : String
  original_timestamp : Option Int
  received_at : Int
  processed : Bool
deriving DecidableEq, Repr

/-- The in-memory window object built by `groupByTimeWindow`. -/
structure SessionWindow where
  windowStart : Int
  source_type : String
  session_file : String
  project_folder : Option String
  project_slug : Option String
  team_port : Option Int
  transcripts : List RawRecord
  content : String
  earliest_ts : Int
  latest_ts : Int
deriving DecidableEq, Repr

/-- Result of `resolveProjectSlug`. -/
structure ResolvedSlug where
  slug : String
  reason : String
  port : Option Int
deriving DecidableEq, Repr

/-- Result of `parseRoutingFromCwd`. -/
structure Routing where
  project_slug : Option String
  team_port : Option Int
deriving DecidableEq, Repr

/-! ### Window aggregator (`groupByTimeWindow`, source lines 110-139) -/

/-- `TIME_WINDOW_MS = 30 * 60 * 1000`. -/
def TIME_WINDOW_MS : Int := 30 * 60 * 1000

/-- `const ts = t.original_timestamp ? new Date(...).getTime() : new Date(t.received_at).getTime()`. -/
def recordTs (t : RawRecord) : Int :=
  match t.original_timestamp with
  | some ts => ts
  | none => t.received_at

/-- `Math.floor(ts / TIME_WINDOW_MS) * TIME_WINDOW_MS`. -/
def recordWindowStart (t : RawRecord) : Int :=
  (recordTs t).fdiv TIME_WINDOW_MS * TIME_WINDOW_MS

/-- `t.source_type || 'transcript'`. -/
def keySourceType (t : RawRecord) : String := jsOrStr t.source_type "transcript"

/-- `t.session_file || 'unknown'`. -/
def keySourceName (t : RawRecord) : String := jsOrStr t.session_file "unknown"

/-- `t.team_port || 0`. -/
def keyTeamPort (t : RawRecord) : Int := jsOrInt t.team_port 0

/-- `sourceType + ':' + sourceName + ':' + teamPort + ':' + windowStart`. -/
def windowKey (t : RawRecord) : String :=
  keySourceType t ++ ":" ++ keySourceName t ++ ":" ++ toString (keyTeamPort t)
    ++ ":" ++ toString (recordWindowStart t)

/-- Association-list lookup modelling `windows[key]` (JS object property read;
all keys here contain `:` so JS preserves insertion order). -/
def lookupW (k : String) : List (String × SessionWindow) → Option SessionWindow
  | [] => none
  | (k', w) :: rest => if k' = k then some w else lookupW k rest

/-- In-place update of the entry at key `k`. -/
def updateW (k : String) (w : SessionWindow) : List (String × SessionWindow) → List (String × SessionWindow)
  | [] => []
  | (k', w') :: rest => if k' = k then (k', w) :: rest else (k', w') :: updateW k w rest

/-- The object literal that initialises `windows[key]` (before the shared
`push`/`+=`/min/max statements run for the current record). -/
def initWindowShell (t : RawRecord) : SessionWindow :=
  { windowStart := recordWindowStart t
    source_type := keySourceType t
    session_file := keySourceName t
    project_folder := jsOptStr t.project_folder
    project_slug := jsOptStr t.project_slug
    team_port := jsOptInt t.team_port
    transcripts := []
    content := ""
    earliest_ts := recordTs t
    latest_ts := recordTs t }

/-- The unconditional per-record mutations: `push(t)`, `content += t.content + '\n'`,
`earliest_ts = min(..., ts)`, `latest_ts = max(..., ts)`. -/
def addToWindow (w : SessionWindow) (t : RawRecord) : SessionWindow :=
  { w with
    transcripts := w.transcripts ++ [t]
    content := w.content ++ (t.content ++ "\n")
    earliest_ts := min w.earliest_ts (recordTs t)
    latest_ts := max w.latest_ts (recordTs t) }

/-- One iteration of the `for (const t of transcripts)` loop. -/
def groupStep (acc : List (String × SessionWindow)) (t : RawRecord) : List (String × SessionWindow) :=
  let key := windowKey t
  match lookupW key acc with
  | some w => updateW key (addToWindow w t) acc
  | none => acc ++ [(key, addToWindow (initWindowShell t) t)]

/-- `groupByTimeWindow` (source lines 110-139): returns `Object.values(windows)`. -/
def groupByTimeWindow (transcripts : List RawRecord) : List SessionWindow :=
  (transcripts.foldl groupStep []).map Prod.snd

/-! ### Cwd extractor (`extractCwdFromContent`, source lines 143-154) -/

/-- One attempt of `/"cwd"\s*:\s*"([^"]+)"/` anchored at the current position:
the literal `"cwd"`, optional whitespace, `:`, optional whitespace, `"`, a
nonempty greedy run of non-`"` characters, `"`. Returns the captured path and
the remainder after the whole match (no backtracking is possible: `:` and `"`
are not whitespace and `"` is excluded from the capture class). -/
def cwdMatchAt (cs : List Char) : Option (List Char × List Char) :=
  if chListStarts "\"cwd\"".data cs then
    match (cs.drop 5).dropWhile Char.isWhitespace with
    | ':' :: r3 =>
      match r3.dropWhile Char.isWhitespace with
      | '"' :: r5 =>
        match r5.drop (r5.takeWhile (fun c => c ≠ '"')).length with
        | '"' :: rest =>
          if (r5.takeWhile (fun c => c ≠ '"')).isEmpty then none
          else some (r5.takeWhile (fun c => c ≠ '"'), rest)
        | _ => none
      | _ => none
    | _ => none
  else none

/-- The successive non-overlapping matches of `/"cwd"\s*:\s*"([^"]+)"/g`: at
each position try a match; on success record the capture and resume after the
match, otherwise advance one character.  The scan consumes at least one
character per step, so the structural fuel `cs.length` never runs out
(`cwdScan_unfold` below proves the natural recursion equation). -/
def cwdScanAux : Nat → List Char → List (List Char)
  | 0, _ => []
  | _ + 1, [] => []
  | fuel + 1, c :: rest =>
    match cwdMatchAt (c :: rest) with
    | some (path, after) => path :: cwdScanAux fuel after
    | none => cwdScanAux fuel rest

def cwdScan (cs : List Char) : List (List Char) := cwdScanAux cs.length cs

/-- `.replace(/\\\\/g, "/")`: left-to-right, every pair of backslashes becomes
one slash. -/
def collapseDoubleBackslash : List Char → List Char
  | '\\' :: '\\' :: rest => '/' :: collapseDoubleBackslash rest
  | c :: rest => c :: collapseDoubleBackslash rest
  | [] => []

/-- `extractCwdFromContent` (source lines 143-154): the last match's captured
path, with `\\` pairs then single `\` normalized to `/`. -/
def extractCwdFromContent (content : String) : Option String :=
  if content = "" then none
  else
    match (cwdScan content.data).getLast? with
    | some path =>
      some (String.mk ((collapseDoubleBackslash path).map (fun c => if c = '\\' then '/' else c)))
    | none => none

/-! ### Path router (`parseRoutingFromCwd` / `isHomePath`, source lines 159-181) -/

/-- `cwd.replace(/\\/g, "/")`. -/
def slashify (s : String) : String :=
  String.mk (s.data.map (fun c => if c = '\\' then '/' else c))

/-- Character class `[a-z0-9-]` (the regex runs on a lowercased string). -/
def isSlugChar (c : Char) : Bool := ('a' ≤ c && c ≤ 'z') || c.isDigit || c = '-'

/-- Attempt of `/([a-z0-9-]+)-(\d{4,5})/` anchored at the current position,
with the engine's greedy/backtracking choice: the first capture takes the
longest `[a-z0-9-]+` stretch that still leaves a literal `-` followed by at
least 4 digits (the largest viable split index `j`), and the digit capture
then takes 5 digits when a fifth is available, else 4. -/
def portSplitViable (cs : List Char) (j : Nat) : Bool :=
  decide (1 ≤ j) && (cs.take j).all isSlugChar && decide (cs.get? j = some '-')
    && decide (4 ≤ ((cs.drop (j + 1)).takeWhile Char.isDigit).length)

def hyphenPortAt (cs : List Char) : Option (List Char × List Char) :=
  match ((List.range cs.length).reverse.filter (portSplitViable cs)).head? with
  | some j => some (cs.take j, ((cs.drop (j + 1)).takeWhile Char.isDigit).take 5)
  | none => none

/-- Leftmost-match scan for `/([a-z0-9-]+)-(\d{4,5})/`. -/
def findHyphenPort : List Char → Option (List Char × List Char)
  | [] => none
  | c :: rest =>
    match hyphenPortAt (c :: rest) with
    | some r => some r
    | none => findHyphenPort rest

/-- Leftmost-match scan for `/studio\/([^\/]+)/`-style patterns: at each
position the literal marker must match, followed by at least one non-`/`
character; the capture greedily takes all following non-`/` characters. -/
def findSegment (marker : List Char) : List Char → Option (List Char)
  | [] => none
  | c :: rest =>
    if chListStarts marker (c :: rest) then
      let seg := ((c :: rest).drop marker.length).takeWhile (fun ch => ch ≠ '/')
      if seg.isEmpty then findSegment marker rest else some seg
    else findSegment marker rest

/-- The `studioMatch` / `projectsMatch` fallbacks (source lines 170-174). -/
def studioProjectsFallback (normalized : String) : Routing :=
  match findSegment "studio/".data normalized.data with
  | some seg => { project_slug := some (String.mk seg), team_port := none }
  | none =>
    match findSegment "projects/".data normalized.data with
    | some seg => { project_slug := some (String.mk seg), team_port := none }
    | none => { project_slug := none, team_port := none }

/-- `parseRoutingFromCwd` (source lines 159-175). -/
def parseRoutingFromCwd (cwd : String) : Routing :=
  if cwd = "" then { project_slug := none, team_port := none }
  else
    let normalized := strToLower (slashify cwd)
    match findHyphenPort normalized.data with
    | some (g1, ds) =>
      let port : Int := (parseDigitsNat ds : Int)
      if 4000 ≤ port ∧ port ≤ 9999 then
        { project_slug := some (String.mk g1 ++ "-" ++ String.mk ds), team_port := some port }
      else studioProjectsFallback normalized
    | none => studioProjectsFallback normalized

/-- Some maximal run of consecutive decimal digits in `cs` has length at
least 4 (what `\d{4,5}` needs somewhere in the string). -/
def hasDigitRun4 : List Char → Bool
  | [] => false
  | c :: rest =>
    decide (4 ≤ ((c :: rest).takeWhile Char.isDigit).length) || hasDigitRun4 rest

/-- `/^[a-z]:\\users\\/i.test(c)`: a drive letter followed by `:\users\`
(the `i` flag makes the letter class case-insensitive; `c` is lowercased). -/
def winDriveUsers (c : String) : Bool :=
  match c.data with
  | ch :: rest =>
    (('a' ≤ ch && ch ≤ 'z') || ('A' ≤ ch && ch ≤ 'Z')) && chListStarts ":\\users\\".data rest
  | [] => false

/-- `isHomePath` (source lines 177-181). -/
def isHomePath (p : String) : Bool :=
  if p = "" then false
  else
    let c := strToLower p
    strIncludes c "/home/" || strIncludes c "/root/" || strEndsWith c "/root"
      || strIncludes c "\\users\\" || winDriveUsers c

/-! ### Identity resolver (`resolveProjectSlug`, source lines 184-238) -/

/-- `LOW_TRUST_SLUGS` (source line 184). -/
def LOW_TRUST_SLUGS : List String :=
  ["ai-team", "terminal", "unassigned", "unknown", "default", "studio", "www"]

/-- `SLUG_PORT_MAP` (source lines 187-198). -/
def SLUG_PORT_MAP : List (String × String) :=
  [("ai-chad", "ai-chad-5401"), ("ai-jen", "ai-jen-5402"), ("ai-susan", "ai-susan-5403"),
   ("ai-clair", "ai-clair-5404"), ("ai-jason", "ai-jason-5408"), ("ai-mike", "ai-mike-5405"),
   ("ai-tiffany", "ai-tiffany-5406"), ("ai-ryan", "ai-ryan-5407"),
   ("kodiack-dashboard", "kodiack-dashboard-5500"), ("terminal-server", "terminal-server-5400")]

/-- `normalizeSlug` (source lines 200-203): `SLUG_PORT_MAP[slug] || slug`,
modelled as own-property lookup (all map values are truthy). -/
def normalizeSlug (slug : String) : String :=
  if slug = "" then slug
  else (SLUG_PORT_MAP.lookup slug).getD slug

/-- One entry of the content-sniffer table; `needle` models the source's
`match` field (a Lean keyword). -/
structure Pattern where
  needle : String
  slug : String
deriving DecidableEq, Repr

/-- The `patterns` table (source lines 220-230), in order. -/
def PATTERNS : List Pattern :=
  [⟨"kodiack-dashboard", "kodiack-dashboard-5500"⟩,
   ⟨"dashboard-5500", "kodiack-dashboard-5500"⟩,
   ⟨"ai-jen", "ai-jen-5402"⟩,
   ⟨"ai-susan", "ai-susan-5403"⟩,
   ⟨"ai-chad", "ai-chad-5401"⟩,
   ⟨"ai-jason", "ai-jason-5408"⟩,
   ⟨"terminal-server", "terminal-server-5400"⟩,
   ⟨"nextbid", "nextbid"⟩,
   ⟨"kodiack-studio", "kodiack-studio"⟩]

/-- `[win.session_file || '', win.project_folder || '', (win.content || '').substring(0, 5000)].join(' ').toLowerCase()`
(`win.session_file` and `win.content` are plain strings here, so their
`|| ''` is the identity). -/
def contentHaystack (win : SessionWindow) : String :=
  strToLower (String.intercalate " "
    [win.session_file, win.project_folder.getD "", strTake win.content 5000])

/-- The pattern loop over a haystack and the unresolved fallback
(source lines 231-237). -/
def matchFirstPattern (haystack : String) : ResolvedSlug :=
  match PATTERNS.find? (fun pat => strIncludes haystack pat.needle) with
  | some pat => { slug := pat.slug, reason := "content:" ++ pat.needle, port := none }
  | none => { slug := "unassigned", reason := "no_match", port := none }

/-- The pattern loop applied to the window's haystack. -/
def contentResolve (win : SessionWindow) : ResolvedSlug :=
  matchFirstPattern (contentHaystack win)

/-- The cwd branch and everything after the trusted-label check
(source lines 213-237). -/
def resolveAfterLabel (win : SessionWindow) (cwd : Option String) : ResolvedSlug :=
  match cwd with
  | some c =>
    if c ≠ "" ∧ isHomePath c = false then
      match (parseRoutingFromCwd c).project_slug with
      | some rs =>
        if rs ≠ "" then { slug := rs, reason := "cwd", port := (parseRoutingFromCwd c).team_port }
        else contentResolve win
      | none => contentResolve win
    else contentResolve win
  | none => contentResolve win

/-- `resolveProjectSlug` (source lines 205-238). -/
def resolveProjectSlug (win : SessionWindow) (cwd : Option String) : ResolvedSlug :=
  match win.project_slug with
  | some s =>
    if s ≠ "" ∧ LOW_TRUST_SLUGS.contains s = false then
      { slug := normalizeSlug s, reason := "transcript", port := win.team_port }
    else resolveAfterLabel win cwd
  | none => resolveAfterLabel win cwd

/-! ### Session processor (`processTranscripts`, source lines 240-371) -/

/-- Store-insert error result (`error.message`; an absent message is `""`). -/
structure DBError where
  message : String
deriving DecidableEq, Repr

/-- The `dev_ai_sessions` insert payload; `started_at` keeps the window-start
milliseconds (`new Date(ms).toISOString()` is injective in ms). -/
structure SessionRow where
  project_id : Option String
  project_uuid : Option String
  project_slug : String
  team_port : Option Int
  source_type : String
  source_name : String
  status : String
  raw_content : String
  message_count : Nat
  started_at : Int
deriving DecidableEq, Repr

/-- Deterministic store responses for one pass: `projLookup` models
`from('dev_projects').select('id').eq('slug', s).single()` (`none` when the
query errs or yields no truthy id), `insertResult` models the
`dev_ai_sessions` insert outcome (`none` accepted, `some e` error result). -/
structure StoreEnv where
  projLookup : String → Option String
  insertResult : SessionRow → Option DBError

/-- `(content.match(/\n/g) || []).length + 1`. -/
def messageCountOf (content : String) : Nat :=
  (content.data.filter (fun c => c = '\n')).length + 1

/-- `markTranscriptsProcessed(ids)` (source lines 365-371) issues one
`processed = true` update per id, in order; the model returns the ids updated. -/
def markTranscriptsProcessed (ids : List Nat) : List Nat := ids

/-- `resolveProjectSlug(window, extractCwdFromContent(content)).slug`. -/
def finalSlugOf (win : SessionWindow) : String :=
  (resolveProjectSlug win (extractCwdFromContent win.content)).slug

/-- `resolved.port || window.team_port`. -/
def finalPortOf (win : SessionWindow) : Option Int :=
  jsOrOptInt (resolveProjectSlug win (extractCwdFromContent win.content)).port win.team_port

/-- Lines 289-303: project lookup by the resolved slug, falling back to the
`unassigned` project. -/
def resolvedProjectUuid (env : StoreEnv) (slug : String) : Option String :=
  match env.projLookup slug with
  | some u => some u
  | none => env.projLookup "unassigned"

/-- The row passed to `from('dev_ai_sessions').insert(...)` (source lines 305-317). -/
def sessionRowFor (env : StoreEnv) (win : SessionWindow) : SessionRow :=
  { project_id := resolvedProjectUuid env (finalSlugOf win)
    project_uuid := resolvedProjectUuid env (finalSlugOf win)
    project_slug := finalSlugOf win
    team_port := finalPortOf win
    source_type := jsOrStr (some win.source_type) "transcript"
    source_name := win.session_file
    status := "active"
    raw_content := win.content
    message_count := messageCountOf win.content
    started_at := win.windowStart }

/-- Observable effects of one iteration of the per-window loop. -/
structure WindowOutcome where
  markedIds : List Nat
  insertAttempts : List SessionRow
  sessionsDelta : Nat
  processedDelta : Nat
  errorsDelta : Nat
deriving DecidableEq, Repr

/-- One iteration of `for (const window of windows)` (source lines 269-343):
the short-content skip, the insert with its duplicate-key handling, and the
marking of member records. -/
def processWindow (env : StoreEnv) (win : SessionWindow) : WindowOutcome :=
  if win.content.length < 100 then
    { markedIds := markTranscriptsProcessed (win.transcripts.map (fun t => t.id))
      insertAttempts := []
      sessionsDelta := 0
      processedDelta := win.transcripts.length
      errorsDelta := 0 }
  else
    match env.insertResult (sessionRowFor env win) with
    | some insertError =>
      if insertError.message ≠ "" ∧ strIncludes insertError.message "duplicate key" = true then
        { markedIds := markTranscriptsProcessed (win.transcripts.map (fun t => t.id))
          insertAttempts := [sessionRowFor env win]
          sessionsDelta := 1
          processedDelta := win.transcripts.length
          errorsDelta := 0 }
      else
        { markedIds := []
          insertAttempts := [sessionRowFor env win]
          sessionsDelta := 0
          processedDelta := 0
          errorsDelta := 1 }
    | none =>
      { markedIds := markTranscriptsProcessed (win.transcripts.map (fun t => t.id))
        insertAttempts := [sessionRowFor env win]
        sessionsDelta := 1
        processedDelta := win.transcripts.length
        errorsDelta := 0 }

/-- Pass summary (`{ processed, sessions, errors }`). -/
structure PassSummary where
  processed : Nat
  sessions : Nat
  errors : Nat
deriving DecidableEq, Repr

/-- The happy-path body of `processTranscripts` on a successfully fetched
nonempty batch (source lines 262-347). -/
def processPass (env : StoreEnv) (transcripts : List RawRecord) : PassSummary :=
  (groupByTimeWindow transcripts).foldl
    (fun acc w =>
      { processed := acc.processed + (processWindow env w).processedDelta
        sessions := acc.sessions + (processWindow env w).sessionsDelta
        errors := acc.errors + (processWindow env w).errorsDelta })
    { processed := 0, sessions := 0, errors := 0 }

/-- `processTranscripts` (source lines 240-353): a fetch failure reports
`{processed: 0, errors: 1}` (the absent `sessions` field modelled as 0), an
empty batch `{processed: 0, errors: 0, sessions: 0}`, otherwise the pass body. -/
def processTranscripts (env : StoreEnv) (fetched : Except DBError (List RawRecord)) : PassSummary :=
  match fetched with
  | .error _ => { processed := 0, sessions := 0, errors := 1 }
  | .ok ts =>
    if ts.isEmpty then { processed := 0, sessions := 0, errors := 0 }
    else processPass env ts

/-- `extractProject` (source lines 355-363; feeds logging only). -/
def extractProject (sessionFile : Option String) : String :=
  match sessionFile with
  | none => "unknown"
  | some sf =>
    if sf = "" then "unknown"
    else
      let parts := (slashify sf).splitOn "/"
      let dirPart := if parts.length > 1 then parts.headD "" else sf
      let converted :=
        match dirPart.data with
        | ch :: '-' :: '-' :: rest =>
          if 'A' ≤ ch ∧ ch ≤ 'Z' then String.mk (ch :: ':' :: '/' :: rest) else dirPart
        | _ => dirPart
      let converted2 := String.mk (converted.data.map (fun c => if c = '-' then '/' else c))
      if converted2 = "" then "unknown" else converted2

/-! ### Decimal-representation facts

The window key embeds `teamPort` and `windowStart` through JS number
stringification (`toString : Int → String`).  To reason about key equality we
prove that this stringification is injective and produces no `:` character. -/

/-- Reference decimal digit list of a natural number. -/
def natDigitsRef (n : Nat) : List Char :=
  if h : n < 10 then [Nat.digitChar n]
  else natDigitsRef (n / 10) ++ [Nat.digitChar (n % 10)]
decreasing_by exact Nat.div_lt_self (by omega) (by omega)

/-- Decimal parser accumulating into `a` (left fold, like reading digits). -/
def parseAcc (a : Nat) (cs : List Char) : Nat :=
  cs.foldl (fun x c => x * 10 + digitVal c) a

/-! ### Characterising `groupByTimeWindow` -/

/-- What the loop body does to the window at the current record's key. -/
def windowStep1 (ow : Option SessionWindow) (t : RawRecord) : SessionWindow :=
  match ow with
  | some w => addToWindow w t
  | none => addToWindow (initWindowShell t) t

/-- Evolution of a single key's window over a record list. -/
def evolveKey (ow : Option SessionWindow) (ms : List RawRecord) : Option SessionWindow :=
  ms.foldl (fun acc t => some (windowStep1 acc t)) ow

/-- Repeatedly absorb records into an existing window. -/
def addAll (w : SessionWindow) (ms : List RawRecord) : SessionWindow :=
  ms.foldl addToWindow w

/-- The window built from a nonempty member list. -/
def buildW (t : RawRecord) (ms : List RawRecord) : SessionWindow :=
  addAll (addToWindow (initWindowShell t) t) ms

/-- `windows[key].content` accumulated over a member list. -/
def contentConcat (ms : List RawRecord) : String :=
  ms.foldl (fun s t => s ++ (t.content ++ "\n")) ""

def keysOf (acc : List (String × SessionWindow)) : List String := acc.map Prod.fst

/-! ### Concrete instances for counterexamples and witnesses -/

def caColl : RawRecord := ⟨1, some "a:b", some "c", none, none, none, "x", some 0, 0, false⟩

def cbColl : RawRecord := ⟨2, some "a", some "b:c", none, none, none, "y", some 0, 0, false⟩

def cpSlugA : RawRecord := ⟨1, some "t", some "f", some "alpha", none, none, "x", some 0, 0, false⟩

def cqSlugB : RawRecord := ⟨2, some "t", some "f", some "beta", none, none, "y", some 0, 0, false⟩

def cwTrusted : SessionWindow := ⟨0, "transcript", "sess", none, some "ai-jen", some 7, [], "x", 0, 0⟩

def cwLowTrust : SessionWindow := ⟨0, "transcript", "sess", none, some "ai-team", none, [], "zzz", 0, 0⟩

def crShort : RawRecord := ⟨5, some "transcript", some "s", none, none, none, "hi", some 0, 0, false⟩

def crLong : RawRecord :=
  ⟨7, some "transcript", some "s", none, none, none, String.mk (List.replicate 120 'a'), some 0, 0, false⟩

def envNone : StoreEnv := ⟨fun _ => none, fun _ => none⟩

def dupErr : DBError := ⟨"duplicate key value violates unique constraint"⟩

def envDup : StoreEnv := ⟨fun _ => none, fun _ => some dupErr⟩

def otherErr : DBError := ⟨"connection reset"⟩

def envErr : StoreEnv := ⟨fun _ => none, fun _ => some otherErr⟩

/-! ## Verification -/

theorem cwdMatchAt_rest_lt (cs path rest : List Char)
    (h : cwdMatchAt cs = some (path, rest)) : rest.length < cs.length := by
  unfold cwdMatchAt at h
  split at h
  · rename_i hpre
    split at h
    · rename_i r3 h2
      split at h
      · rename_i r5 h4
        split at h
        · rename_i rest' h5
          split at h
          · exact absurd h (by simp)
          · have hd5 : (cs.drop 5).length = cs.length - 5 := List.length_drop 5 cs
            have hw2 : ((cs.drop 5).dropWhile Char.isWhitespace).length ≤ (cs.drop 5).length :=
              (List.dropWhile_sublist _).length_le
            rw [h2] at hw2
            have hw4 : (r3.dropWhile Char.isWhitespace).length ≤ r3.length :=
              (List.dropWhile_sublist _).length_le
            rw [h4] at hw4
            have hd : (r5.drop (r5.takeWhile (fun c => c ≠ '"')).length).length ≤ r5.length := by
              rw [List.length_drop]; omega
            rw [h5] at hd
            have hcs : 5 ≤ cs.length := by
              rcases cs with _ | ⟨a, _ | ⟨b, _ | ⟨c, _ | ⟨d, _ | ⟨e, tl⟩⟩⟩⟩⟩ <;>
                simp_all [chListStarts]
            injection h with h'
            injection h' with hp hr
            subst hr
            simp only [List.length_cons] at hw2 hw4 hd
            omega
        · exact absurd h (by simp)
      · exact absurd h (by simp)
    · exact absurd h (by simp)
  · exact absurd h (by simp)

theorem natDigitsRef_ne_nil (n : Nat) : natDigitsRef n ≠ [] := by
  rw [natDigitsRef]
  split <;> simp

theorem digitVal_digitChar : ∀ n, n < 10 → digitVal (Nat.digitChar n) = n := by decide

theorem digitChar_isDigit : ∀ n, n < 10 → (Nat.digitChar n).isDigit = true := by decide

theorem natDigitsRef_all_digit (n : Nat) : ∀ c ∈ natDigitsRef n, c.isDigit = true := by
  induction n using Nat.strong_induction_on with
  | _ n ih =>
    rw [natDigitsRef]
    split
    · rename_i h
      intro c hc
      simp at hc
      subst hc
      exact digitChar_isDigit n h
    · rename_i h
      intro c hc
      rcases List.mem_append.1 hc with hc | hc
      · exact ih (n / 10) (Nat.div_lt_self (by omega) (by omega)) c hc
      · simp at hc
        subst hc
        exact digitChar_isDigit _ (Nat.mod_lt _ (by omega))

theorem toDigitsCore_eq_ref : ∀ (fuel n : Nat) (ds : List Char), n < fuel →
    Nat.toDigitsCore 10 fuel n ds = natDigitsRef n ++ ds := by
  intro fuel
  induction fuel with
  | zero => intro n ds h; omega
  | succ fuel ih =>
    intro n ds h
    rw [Nat.toDigitsCore]
    by_cases h10 : n / 10 = 0
    · have hn : n < 10 := by
        rcases Nat.lt_or_ge n 10 with h' | h'
        · exact h'
        · exact absurd h10 (by
            have h1 : 10 / 10 ≤ n / 10 := Nat.div_le_div_right h'
            simp at h1
            omega)
      simp only [h10, if_pos]
      rw [natDigitsRef, dif_pos hn, Nat.mod_eq_of_lt hn]
      rfl
    · have hn : 10 ≤ n := by
        rcases Nat.lt_or_ge n 10 with h' | h'
        · exact absurd (Nat.div_eq_of_lt h') h10
        · exact h'
      simp only [h10, if_neg, if_false]
      rw [ih (n / 10) _ (by
        have h1 : n / 10 < n := Nat.div_lt_self (by omega) (by omega)
        omega)]
      conv_rhs => rw [natDigitsRef]
      rw [dif_neg (show ¬ n < 10 by omega)]
      simp

theorem parseAcc_ref (n : Nat) : ∀ a : Nat,
    parseAcc a (natDigitsRef n) = a * 10 ^ (natDigitsRef n).length + n := by
  induction n using Nat.strong_induction_on with
  | _ n ih =>
    intro a
    rw [natDigitsRef]
    split
    · rename_i h
      simp [parseAcc, digitVal_digitChar n h]
    · rename_i h
      have hlt : n / 10 < n := Nat.div_lt_self (by omega) (by omega)
      simp only [parseAcc, List.foldl_append, List.foldl_cons, List.foldl_nil, List.length_append,
        List.length_cons, List.length_nil]
      have := ih (n / 10) hlt a
      simp only [parseAcc] at this
      rw [this, digitVal_digitChar _ (Nat.mod_lt _ (by omega))]
      have hx : n / 10 * 10 + n % 10 = n := by omega
      calc (a * 10 ^ (natDigitsRef (n / 10)).length + n / 10) * 10 + n % 10
          = a * 10 ^ ((natDigitsRef (n / 10)).length + 1) + (n / 10 * 10 + n % 10) := by ring
        _ = a * 10 ^ ((natDigitsRef (n / 10)).length + 1) + n := by rw [hx]

theorem natRepr_data (n : Nat) : (Nat.repr n).data = natDigitsRef n := by
  show (Nat.toDigits 10 n).asString.data = natDigitsRef n
  rw [Nat.toDigits, toDigitsCore_eq_ref (n + 1) n [] (Nat.lt_succ_self n)]
  simp [List.asString]

theorem natRepr_inj {m n : Nat} (h : Nat.repr m = Nat.repr n) : m = n := by
  have hd : natDigitsRef m = natDigitsRef n := by
    rw [← natRepr_data, ← natRepr_data, h]
  have := parseAcc_ref m 0
  rw [hd, parseAcc_ref n 0] at this
  omega

theorem int_toString_ofNat (m : Nat) : toString (Int.ofNat m) = Nat.repr m := rfl

theorem int_toString_negSucc (m : Nat) : toString (Int.negSucc m) = "-" ++ Nat.repr (m + 1) := rfl

theorem int_ofNat_toString_data (m : Nat) : (toString (Int.ofNat m)).data = natDigitsRef m := by
  rw [int_toString_ofNat, natRepr_data]

theorem int_negSucc_toString_data (m : Nat) :
    (toString (Int.negSucc m)).data = '-' :: natDigitsRef (m + 1) := by
  rw [int_toString_negSucc, String.data_append, natRepr_data]
  rfl

theorem int_toString_no_colon (i : Int) : ':' ∉ (toString i).data := by
  cases i with
  | ofNat m =>
    rw [int_ofNat_toString_data]
    intro hc
    have := natDigitsRef_all_digit m ':' hc
    simp [Char.isDigit] at this
  | negSucc m =>
    rw [int_negSucc_toString_data]
    intro hc
    rcases List.mem_cons.1 hc with hc | hc
    · exact absurd hc (by decide)
    · have := natDigitsRef_all_digit (m + 1) ':' hc
      simp [Char.isDigit] at this

theorem natDigitsRef_inj {m n : Nat} (h : natDigitsRef m = natDigitsRef n) : m = n := by
  have := parseAcc_ref m 0
  rw [h, parseAcc_ref n 0] at this
  omega

theorem int_toString_inj : ∀ {i j : Int}, toString i = toString j → i = j := by
  intro i j h
  have hd : (toString i).data = (toString j).data := by rw [h]
  cases i with
  | ofNat m =>
    cases j with
    | ofNat n =>
      rw [int_ofNat_toString_data, int_ofNat_toString_data] at hd
      rw [natDigitsRef_inj hd]
    | negSucc n =>
      exfalso
      rw [int_ofNat_toString_data, int_negSucc_toString_data] at hd
      have hmem : '-' ∈ natDigitsRef m := hd ▸ List.mem_cons_self '-' _
      have := natDigitsRef_all_digit m '-' hmem
      simp [Char.isDigit] at this
  | negSucc m =>
    cases j with
    | ofNat n =>
      exfalso
      rw [int_negSucc_toString_data, int_ofNat_toString_data] at hd
      have hmem : '-' ∈ natDigitsRef n := hd.symm ▸ List.mem_cons_self '-' _
      have := natDigitsRef_all_digit n '-' hmem
      simp [Char.isDigit] at this
    | negSucc n =>
      rw [int_negSucc_toString_data, int_negSucc_toString_data] at hd
      have hdd : natDigitsRef (m + 1) = natDigitsRef (n + 1) := by injection hd
      have : m = n := by have := natDigitsRef_inj hdd; omega
      rw [this]

/-! ### Dissecting the colon-joined window key -/

theorem colon_cancel_front : ∀ (a₁ : List Char) {a₂ b₁ b₂ : List Char},
    ':' ∉ a₁ → ':' ∉ a₂ → a₁ ++ ':' :: b₁ = a₂ ++ ':' :: b₂ → a₁ = a₂ ∧ b₁ = b₂ := by
  intro a₁
  induction a₁ with
  | nil =>
    intro a₂ b₁ b₂ _ h₂ h
    cases a₂ with
    | nil => simpa using h
    | cons c cs =>
      exfalso
      simp only [List.nil_append, List.cons_append, List.cons.injEq] at h
      exact h₂ (h.1 ▸ List.mem_cons_self _ _)
  | cons c cs ih =>
    intro a₂ b₁ b₂ h₁ h₂ h
    cases a₂ with
    | nil =>
      exfalso
      simp only [List.nil_append, List.cons_append, List.cons.injEq] at h
      exact h₁ (h.1 ▸ List.mem_cons_self _ _)
    | cons d ds =>
      simp only [List.cons_append, List.cons.injEq] at h
      have := ih (fun hm => h₁ (List.mem_cons_of_mem _ hm)) (fun hm => h₂ (List.mem_cons_of_mem _ hm)) h.2
      exact ⟨by rw [h.1, this.1], this.2⟩

theorem colon_cancel_back {x₁ x₂ y₁ y₂ : List Char}
    (h₁ : ':' ∉ y₁) (h₂ : ':' ∉ y₂)
    (h : x₁ ++ ':' :: y₁ = x₂ ++ ':' :: y₂) : x₁ = x₂ ∧ y₁ = y₂ := by
  have hrev : y₁.reverse ++ ':' :: x₁.reverse = y₂.reverse ++ ':' :: x₂.reverse := by
    have := congrArg List.reverse h
    simpa [List.reverse_append] using this
  have := colon_cancel_front y₁.reverse
    (by simpa using h₁) (by simpa using h₂) hrev
  constructor
  · exact List.reverse_inj.1 this.2
  · exact List.reverse_inj.1 this.1

theorem colon_str_data : (":" : String).data = [':'] := rfl

theorem windowKey_data (t : RawRecord) :
    (windowKey t).data =
      ((keySourceType t).data ++ ':' :: (keySourceName t).data
        ++ ':' :: (toString (keyTeamPort t)).data)
        ++ ':' :: (toString (recordWindowStart t)).data := by
  simp [windowKey, String.data_append, colon_str_data]

/-- Records whose string keys coincide agree on the window-start and on the
defaulted team port (the last two colon-separated components are numeric, so
they contain no `:` and determine their values). -/
theorem windowKey_eq_parts {t₁ t₂ : RawRecord} (h : windowKey t₁ = windowKey t₂) :
    recordWindowStart t₁ = recordWindowStart t₂ ∧ keyTeamPort t₁ = keyTeamPort t₂ := by
  have hd : (windowKey t₁).data = (windowKey t₂).data := by rw [h]
  rw [windowKey_data, windowKey_data] at hd
  have step1 := colon_cancel_back (int_toString_no_colon (recordWindowStart t₁))
    (int_toString_no_colon (recordWindowStart t₂)) hd
  have hws : recordWindowStart t₁ = recordWindowStart t₂ :=
    int_toString_inj (String.ext step1.2)
  have hx : (keySourceType t₁).data ++ ':' :: (keySourceName t₁).data
      ++ ':' :: (toString (keyTeamPort t₁)).data
      = (keySourceType t₂).data ++ ':' :: (keySourceName t₂).data
      ++ ':' :: (toString (keyTeamPort t₂)).data := step1.1
  have step2 := colon_cancel_back (int_toString_no_colon (keyTeamPort t₁))
    (int_toString_no_colon (keyTeamPort t₂)) hx
  exact ⟨hws, int_toString_inj (String.ext step2.2)⟩

theorem lookupW_updateW_self {k : String} {w₀ w : SessionWindow} :
    ∀ {acc : List (String × SessionWindow)}, lookupW k acc = some w₀ →
      lookupW k (updateW k w acc) = some w := by
  intro acc
  induction acc with
  | nil => intro h; simp [lookupW] at h
  | cons p rest ih =>
    obtain ⟨k', w'⟩ := p
    intro h
    by_cases hk : k' = k
    · simp [lookupW, updateW, hk]
    · simp only [lookupW, updateW, if_neg hk] at h ⊢
      exact ih h

theorem lookupW_updateW_ne {k k' : String} (hne : k ≠ k') (w : SessionWindow) :
    ∀ (acc : List (String × SessionWindow)), lookupW k' (updateW k w acc) = lookupW k' acc := by
  intro acc
  induction acc with
  | nil => rfl
  | cons p rest ih =>
    obtain ⟨k₀, w₀⟩ := p
    by_cases hk : k₀ = k
    · subst hk
      simp [lookupW, updateW, hne]
    · simp only [updateW, if_neg hk, lookupW]
      by_cases hk' : k₀ = k'
      · simp [hk']
      · simp [if_neg hk', ih]

theorem lookupW_append (k k₀ : String) (w₀ : SessionWindow) :
    ∀ (acc : List (String × SessionWindow)),
      lookupW k (acc ++ [(k₀, w₀)]) =
        match lookupW k acc with
        | some w => some w
        | none => if k₀ = k then some w₀ else none := by
  intro acc
  induction acc with
  | nil => simp [lookupW]
  | cons p rest ih =>
    obtain ⟨k', w'⟩ := p
    by_cases hk : k' = k
    · simp [lookupW, hk]
    · simp only [List.cons_append, lookupW, if_neg hk]
      exact ih

theorem lookupW_eq_none_iff (k : String) :
    ∀ (acc : List (String × SessionWindow)), lookupW k acc = none ↔ k ∉ keysOf acc := by
  intro acc
  induction acc with
  | nil => simp [lookupW, keysOf]
  | cons p rest ih =>
    obtain ⟨k', w'⟩ := p
    by_cases hk : k' = k
    · simp [lookupW, hk, keysOf]
    · simp only [lookupW, if_neg hk, keysOf, List.map_cons, List.mem_cons]
      rw [ih]
      simp [keysOf]
      tauto

theorem lookup_groupStep (acc : List (String × SessionWindow)) (t : RawRecord) (k : String) :
    lookupW k (groupStep acc t) =
      if windowKey t = k then some (windowStep1 (lookupW k acc) t) else lookupW k acc := by
  cases h : lookupW (windowKey t) acc with
  | some w =>
    have hstep : groupStep acc t = updateW (windowKey t) (addToWindow w t) acc := by
      simp only [groupStep]
      rw [h]
    rw [hstep]
    by_cases hk : windowKey t = k
    · subst hk
      rw [if_pos rfl, h, lookupW_updateW_self h]
      rfl
    · rw [if_neg hk, lookupW_updateW_ne hk]
  | none =>
    have hstep : groupStep acc t = acc ++ [(windowKey t, addToWindow (initWindowShell t) t)] := by
      simp only [groupStep]
      rw [h]
    rw [hstep, lookupW_append]
    by_cases hk : windowKey t = k
    · subst hk
      rw [h]
      simp [windowStep1]
    · cases h' : lookupW k acc with
      | some w => simp [hk]
      | none => simp [hk]

theorem lookup_group (l : List RawRecord) :
    ∀ (acc : List (String × SessionWindow)) (k : String),
      lookupW k (l.foldl groupStep acc) =
        evolveKey (lookupW k acc) (l.filter (fun t => windowKey t == k)) := by
  induction l with
  | nil => intro acc k; rfl
  | cons t l ih =>
    intro acc k
    rw [List.foldl_cons, ih, List.filter_cons]
    rw [lookup_groupStep]
    by_cases hk : windowKey t = k
    · rw [if_pos hk, if_pos (by simpa using hk)]
      rfl
    · rw [if_neg hk, if_neg (by simpa using hk)]

theorem keysOf_updateW (k : String) (w : SessionWindow) :
    ∀ (acc : List (String × SessionWindow)), keysOf (updateW k w acc) = keysOf acc := by
  intro acc
  induction acc with
  | nil => rfl
  | cons p rest ih =>
    obtain ⟨k', w'⟩ := p
    by_cases hk : k' = k
    · simp [updateW, hk, keysOf]
    · simp only [updateW, if_neg hk, keysOf, List.map_cons]
      simp only [keysOf] at ih
      rw [ih]

theorem keysOf_groupStep_nodup {acc : List (String × SessionWindow)} (t : RawRecord)
    (h : (keysOf acc).Nodup) : (keysOf (groupStep acc t)).Nodup := by
  cases hl : lookupW (windowKey t) acc with
  | some w =>
    have hstep : groupStep acc t = updateW (windowKey t) (addToWindow w t) acc := by
      simp only [groupStep]
      rw [hl]
    rw [hstep, keysOf_updateW]
    exact h
  | none =>
    have hstep : groupStep acc t = acc ++ [(windowKey t, addToWindow (initWindowShell t) t)] := by
      simp only [groupStep]
      rw [hl]
    rw [hstep]
    have hnotin : windowKey t ∉ keysOf acc := (lookupW_eq_none_iff _ _).1 hl
    simp only [keysOf, List.map_append, List.map_cons, List.map_nil]
    rw [List.nodup_append]
    refine ⟨h, by simp, ?_⟩
    intro a ha hb
    simp at hb
    subst hb
    exact hnotin ha

theorem entries_keys_nodup (l : List RawRecord) :
    ∀ {acc : List (String × SessionWindow)}, (keysOf acc).Nodup →
      (keysOf (l.foldl groupStep acc)).Nodup := by
  induction l with
  | nil => intro acc h; exact h
  | cons t l ih => intro acc h; exact ih (keysOf_groupStep_nodup t h)

theorem lookupW_of_mem {k : String} {w : SessionWindow} :
    ∀ {acc : List (String × SessionWindow)}, (keysOf acc).Nodup → (k, w) ∈ acc →
      lookupW k acc = some w := by
  intro acc
  induction acc with
  | nil => intro _ h; simp at h
  | cons p rest ih =>
    obtain ⟨k', w'⟩ := p
    intro hnd hmem
    rcases List.mem_cons.1 hmem with heq | hmem'
    · injection heq with h1 h2
      subst h1; subst h2
      simp [lookupW]
    · simp only [keysOf, List.map_cons, List.nodup_cons] at hnd
      by_cases hk : k' = k
      · exfalso
        subst hk
        exact hnd.1 (List.mem_map.2 ⟨(k', w), hmem', rfl⟩)
      · simp only [lookupW, if_neg hk]
        exact ih hnd.2 hmem'

theorem mem_of_lookupW {k : String} {w : SessionWindow} :
    ∀ {acc : List (String × SessionWindow)}, lookupW k acc = some w → (k, w) ∈ acc := by
  intro acc
  induction acc with
  | nil => intro h; simp [lookupW] at h
  | cons p rest ih =>
    obtain ⟨k', w'⟩ := p
    intro h
    simp only [lookupW] at h
    by_cases hk : k' = k
    · rw [if_pos hk] at h
      injection h with h
      subst h; subst hk
      exact List.mem_cons_self _ _
    · rw [if_neg hk] at h
      exact List.mem_cons_of_mem _ (ih h)

theorem evolveKey_some (ms : List RawRecord) :
    ∀ (w : SessionWindow), evolveKey (some w) ms = some (addAll w ms) := by
  induction ms with
  | nil => intro w; rfl
  | cons t ms ih =>
    intro w
    simp only [evolveKey, List.foldl_cons] at ih ⊢
    rw [ih]
    rfl

theorem evolveKey_none_nil : evolveKey none [] = none := rfl

theorem evolveKey_none_cons (t : RawRecord) (ms : List RawRecord) :
    evolveKey none (t :: ms) = some (buildW t ms) := by
  simp only [evolveKey, List.foldl_cons]
  rw [← evolveKey]
  rw [show windowStep1 none t = addToWindow (initWindowShell t) t from rfl] at *
  exact evolveKey_some ms _

theorem addAll_transcripts (ms : List RawRecord) :
    ∀ (w : SessionWindow), (addAll w ms).transcripts = w.transcripts ++ ms := by
  induction ms with
  | nil => intro w; simp [addAll]
  | cons t ms ih =>
    intro w
    simp only [addAll, List.foldl_cons] at ih ⊢
    rw [ih]
    simp [addToWindow]

theorem addAll_headers (ms : List RawRecord) :
    ∀ (w : SessionWindow),
      (addAll w ms).windowStart = w.windowStart ∧
      (addAll w ms).source_type = w.source_type ∧
      (addAll w ms).session_file = w.session_file ∧
      (addAll w ms).project_slug = w.project_slug ∧
      (addAll w ms).project_folder = w.project_folder ∧
      (addAll w ms).team_port = w.team_port := by
  induction ms with
  | nil => intro w; simp [addAll]
  | cons t ms ih =>
    intro w
    simp only [addAll, List.foldl_cons] at ih ⊢
    have := ih (addToWindow w t)
    simpa [addToWindow] using this

theorem addAll_content (ms : List RawRecord) :
    ∀ (w : SessionWindow),
      (addAll w ms).content = ms.foldl (fun s t => s ++ (t.content ++ "\n")) w.content := by
  induction ms with
  | nil => intro w; simp [addAll]
  | cons t ms ih =>
    intro w
    simp only [addAll, List.foldl_cons] at ih ⊢
    rw [ih]
    rfl

theorem addAll_earliest (ms : List RawRecord) :
    ∀ (w : SessionWindow),
      (addAll w ms).earliest_ts = List.foldl min w.earliest_ts (ms.map recordTs) := by
  induction ms with
  | nil => intro w; simp [addAll]
  | cons t ms ih =>
    intro w
    simp only [addAll, List.foldl_cons, List.map_cons] at ih ⊢
    rw [ih]
    rfl

theorem addAll_latest (ms : List RawRecord) :
    ∀ (w : SessionWindow),
      (addAll w ms).latest_ts = List.foldl max w.latest_ts (ms.map recordTs) := by
  induction ms with
  | nil => intro w; simp [addAll]
  | cons t ms ih =>
    intro w
    simp only [addAll, List.foldl_cons, List.map_cons] at ih ⊢
    rw [ih]
    rfl

theorem buildW_transcripts (t : RawRecord) (ms : List RawRecord) :
    (buildW t ms).transcripts = t :: ms := by
  rw [buildW, addAll_transcripts]
  simp [addToWindow, initWindowShell]

theorem buildW_headers (t : RawRecord) (ms : List RawRecord) :
    (buildW t ms).windowStart = recordWindowStart t ∧
    (buildW t ms).source_type = keySourceType t ∧
    (buildW t ms).session_file = keySourceName t ∧
    (buildW t ms).project_slug = jsOptStr t.project_slug ∧
    (buildW t ms).project_folder = jsOptStr t.project_folder ∧
    (buildW t ms).team_port = jsOptInt t.team_port := by
  have := addAll_headers ms (addToWindow (initWindowShell t) t)
  simpa [buildW, addToWindow, initWindowShell] using this

theorem buildW_content (t : RawRecord) (ms : List RawRecord) :
    (buildW t ms).content = contentConcat (t :: ms) := by
  rw [buildW, addAll_content, contentConcat, List.foldl_cons]
  rfl

theorem buildW_earliest (t : RawRecord) (ms : List RawRecord) :
    (buildW t ms).earliest_ts = List.foldl min (recordTs t) (ms.map recordTs) := by
  rw [buildW, addAll_earliest]
  simp [addToWindow, initWindowShell]

theorem buildW_latest (t : RawRecord) (ms : List RawRecord) :
    (buildW t ms).latest_ts = List.foldl max (recordTs t) (ms.map recordTs) := by
  rw [buildW, addAll_latest]
  simp [addToWindow, initWindowShell]

/-- Every window produced by `groupByTimeWindow l` is the fold of the members
of `l` sharing one key, in their original order. -/
theorem group_mem_char {l : List RawRecord} {w : SessionWindow} (hw : w ∈ groupByTimeWindow l) :
    ∃ (k : String) (t : RawRecord) (ms : List RawRecord),
      l.filter (fun t => windowKey t == k) = t :: ms ∧ w = buildW t ms := by
  rw [groupByTimeWindow] at hw
  rcases List.mem_map.1 hw with ⟨⟨k, w'⟩, hmem, hsnd⟩
  simp only at hsnd
  subst hsnd
  have hnd := @entries_keys_nodup l [] (by simp [keysOf])
  have hl := lookupW_of_mem hnd hmem
  rw [lookup_group l [] k] at hl
  cases hf : l.filter (fun t => windowKey t == k) with
  | nil =>
    rw [hf] at hl
    simp [evolveKey, lookupW] at hl
  | cons t ms =>
    rw [hf, show lookupW k ([] : List (String × SessionWindow)) = none from rfl,
      evolveKey_none_cons] at hl
    injection hl with hl
    exact ⟨k, t, ms, hf, hl.symm⟩

/-- Conversely the window of any key present in `l` is in the output. -/
theorem group_lookup_mem {l : List RawRecord} {k : String} {t : RawRecord} {ms : List RawRecord}
    (hf : l.filter (fun t => windowKey t == k) = t :: ms) :
    buildW t ms ∈ groupByTimeWindow l := by
  have hl : lookupW k (l.foldl groupStep []) = some (buildW t ms) := by
    rw [lookup_group l [] k]
    show evolveKey (lookupW k []) _ = _
    rw [show lookupW k ([] : List (String × SessionWindow)) = none from rfl, hf,
      evolveKey_none_cons]
  rw [groupByTimeWindow]
  exact List.mem_map.2 ⟨(k, buildW t ms), mem_of_lookupW hl, rfl⟩

/-- All members of a filtered class share the key. -/
theorem filter_key_mem {l : List RawRecord} {k : String} {t : RawRecord} {ms : List RawRecord}
    (hf : l.filter (fun t => windowKey t == k) = t :: ms) :
    ∀ x ∈ t :: ms, windowKey x = k := by
  intro x hx
  rw [← hf] at hx
  have := (List.mem_filter.1 hx).2
  simpa using this

/-- Any member of any produced window: the window's transcript list is exactly
the class of its key, in batch order. -/
theorem group_mem_transcripts {l : List RawRecord} {w : SessionWindow}
    (hw : w ∈ groupByTimeWindow l) :
    ∃ k : String, w.transcripts = l.filter (fun t => windowKey t == k) ∧
      w.transcripts ≠ [] ∧ (∀ x ∈ w.transcripts, windowKey x = k) := by
  rcases group_mem_char hw with ⟨k, t, ms, hf, hb⟩
  subst hb
  rw [buildW_transcripts]
  exact ⟨k, hf.symm, by simp, filter_key_mem hf⟩

/-- Every batch record lands in some produced window. -/
theorem group_mem_exists {l : List RawRecord} {t : RawRecord} (ht : t ∈ l) :
    ∃ w ∈ groupByTimeWindow l, t ∈ w.transcripts := by
  have htf : t ∈ l.filter (fun x => windowKey x == windowKey t) :=
    List.mem_filter.2 ⟨ht, by simp⟩
  cases hf : l.filter (fun x => windowKey x == windowKey t) with
  | nil => rw [hf] at htf; simp at htf
  | cons t₀ ms =>
    refine ⟨buildW t₀ ms, group_lookup_mem hf, ?_⟩
    rw [buildW_transcripts, ← hf]
    exact htf

/-- `min`-fold over a list absorbs an element of the list mixed into the seed. -/
theorem foldl_min_absorb : ∀ (l : List Int) (a x : Int), x ∈ l →
    List.foldl min (min a x) l = List.foldl min a l := by
  intro l
  induction l with
  | nil => intro a x hx; simp at hx
  | cons y ys ih =>
    intro a x hx
    rcases List.mem_cons.1 hx with hx | hx
    · subst hx
      simp only [List.foldl_cons]
      rw [min_assoc, min_self]
    · simp only [List.foldl_cons]
      rw [min_right_comm]
      exact ih (min a y) x hx

theorem foldl_max_absorb : ∀ (l : List Int) (a x : Int), x ∈ l →
    List.foldl max (max a x) l = List.foldl max a l := by
  intro l
  induction l with
  | nil => intro a x hx; simp at hx
  | cons y ys ih =>
    intro a x hx
    rcases List.mem_cons.1 hx with hx | hx
    · subst hx
      simp only [List.foldl_cons]
      rw [max_assoc, max_self]
    · simp only [List.foldl_cons]
      rw [show max (max a x) y = max (max a y) x from sup_right_comm a x y]
      exact ih (max a y) x hx

theorem foldl_min_head_perm {t t' : RawRecord} {ms ms' : List RawRecord}
    (hp : (t :: ms).Perm (t' :: ms')) :
    List.foldl min (recordTs t) (ms.map recordTs) =
      List.foldl min (recordTs t') (ms'.map recordTs) := by
  have h1 : List.foldl min (recordTs t) ((t :: ms).map recordTs) =
      List.foldl min (recordTs t) (ms.map recordTs) := by
    simp only [List.map_cons, List.foldl_cons, min_self]
  have h2 : List.foldl min (recordTs t) ((t :: ms).map recordTs) =
      List.foldl min (recordTs t) ((t' :: ms').map recordTs) :=
    (hp.map recordTs).foldl_eq (recordTs t)
  have h3 : List.foldl min (recordTs t) ((t' :: ms').map recordTs) =
      List.foldl min (min (recordTs t) (recordTs t')) (ms'.map recordTs) := by
    simp only [List.map_cons, List.foldl_cons]
  have hmem : t ∈ t' :: ms' := hp.subset (List.mem_cons_self _ _)
  rcases List.mem_cons.1 hmem with he | hmem'
  · subst he
    rw [← h1, h2, h3, min_self]
  · rw [← h1, h2, h3, min_comm]
    exact foldl_min_absorb _ _ _ (List.mem_map.2 ⟨t, hmem', rfl⟩)

theorem foldl_max_head_perm {t t' : RawRecord} {ms ms' : List RawRecord}
    (hp : (t :: ms).Perm (t' :: ms')) :
    List.foldl max (recordTs t) (ms.map recordTs) =
      List.foldl max (recordTs t') (ms'.map recordTs) := by
  have h1 : List.foldl max (recordTs t) ((t :: ms).map recordTs) =
      List.foldl max (recordTs t) (ms.map recordTs) := by
    simp only [List.map_cons, List.foldl_cons, max_self]
  have h2 : List.foldl max (recordTs t) ((t :: ms).map recordTs) =
      List.foldl max (recordTs t) ((t' :: ms').map recordTs) :=
    (hp.map recordTs).foldl_eq (recordTs t)
  have h3 : List.foldl max (recordTs t) ((t' :: ms').map recordTs) =
      List.foldl max (max (recordTs t) (recordTs t')) (ms'.map recordTs) := by
    simp only [List.map_cons, List.foldl_cons]
  have hmem : t ∈ t' :: ms' := hp.subset (List.mem_cons_self _ _)
  rcases List.mem_cons.1 hmem with he | hmem'
  · subst he
    rw [← h1, h2, h3, max_self]
  · rw [← h1, h2, h3, max_comm]
    exact foldl_max_absorb _ _ _ (List.mem_map.2 ⟨t, hmem', rfl⟩)

/-- Records agreeing on the defaulted key port agree on the stored
`team_port` (`t.team_port || null`). -/
theorem jsOptInt_eq_of_keyTeamPort {t₁ t₂ : RawRecord}
    (h : keyTeamPort t₁ = keyTeamPort t₂) :
    jsOptInt t₁.team_port = jsOptInt t₂.team_port := by
  cases h₁ : t₁.team_port with
  | none =>
    cases h₂ : t₂.team_port with
    | none => rfl
    | some n =>
      simp only [keyTeamPort, jsOrInt, h₁, h₂] at h
      by_cases hn : n = 0
      · simp [jsOptInt, hn]
      · rw [if_neg hn] at h
        exact absurd h.symm hn
  | some m =>
    cases h₂ : t₂.team_port with
    | none =>
      simp only [keyTeamPort, jsOrInt, h₁, h₂] at h
      by_cases hm : m = 0
      · simp [jsOptInt, hm]
      · rw [if_neg hm] at h
        exact absurd h hm
    | some n =>
      simp only [keyTeamPort, jsOrInt, h₁, h₂] at h
      simp only [jsOptInt]
      by_cases hm : m = 0
      · rw [if_pos hm] at h
        by_cases hn : n = 0
        · simp [hm, hn]
        · rw [if_neg hn] at h
          exact absurd h.symm hn
      · rw [if_neg hm] at h
        by_cases hn : n = 0
        · rw [if_pos hn] at h
          exact absurd h hm
        · rw [if_neg hn] at h
          simp [h]

/-! ### Facts about the path router -/

theorem head?_mem' {α : Type} {l : List α} {a : α} (h : l.head? = some a) : a ∈ l := by
  cases l with
  | nil => simp at h
  | cons x xs =>
    simp at h
    subst h
    exact List.mem_cons_self _ _

theorem studioProjectsFallback_team_port (n : String) :
    (studioProjectsFallback n).team_port = none := by
  unfold studioProjectsFallback
  cases findSegment "studio/".data n.data with
  | some seg => rfl
  | none =>
    cases findSegment "projects/".data n.data with
    | some seg => rfl
    | none => rfl

theorem run4_of_drop : ∀ (cs : List Char) (i : Nat),
    4 ≤ ((cs.drop i).takeWhile Char.isDigit).length → hasDigitRun4 cs = true := by
  intro cs
  induction cs with
  | nil => intro i h; simp at h
  | cons c rest ih =>
    intro i h
    cases i with
    | zero =>
      simp only [List.drop_zero] at h
      simp only [hasDigitRun4, Bool.or_eq_true, decide_eq_true_eq]
      exact Or.inl h
    | succ i' =>
      simp only [List.drop_succ_cons] at h
      simp only [hasDigitRun4, Bool.or_eq_true]
      exact Or.inr (ih i' h)

theorem hyphenPortAt_run4 {cs : List Char} {r : List Char × List Char}
    (h : hyphenPortAt cs = some r) : hasDigitRun4 cs = true := by
  unfold hyphenPortAt at h
  cases hh : ((List.range cs.length).reverse.filter (portSplitViable cs)).head? with
  | none => rw [hh] at h; exact absurd h (by simp)
  | some j =>
    have hj : j ∈ (List.range cs.length).reverse.filter (portSplitViable cs) := head?_mem' hh
    have hv : portSplitViable cs j = true := (List.mem_filter.1 hj).2
    unfold portSplitViable at hv
    simp only [Bool.and_eq_true, decide_eq_true_eq] at hv
    exact run4_of_drop cs (j + 1) hv.2

theorem findHyphenPort_run4 : ∀ {cs : List Char} {r : List Char × List Char},
    findHyphenPort cs = some r → hasDigitRun4 cs = true := by
  intro cs
  induction cs with
  | nil => intro r h; simp [findHyphenPort] at h
  | cons c rest ih =>
    intro r h
    unfold findHyphenPort at h
    cases hp : hyphenPortAt (c :: rest) with
    | some r' => exact hyphenPortAt_run4 hp
    | none =>
      rw [hp] at h
      simp only [hasDigitRun4, Bool.or_eq_true]
      exact Or.inr (ih h)

/-- C4 (amended): a returned port is always in [4000, 9999]; and when every
maximal digit run of the normalized path is shorter than 4, no port at all is
produced. -/
theorem port_range_and_short_runs (cwd : String) :
    (∀ p : Int, (parseRoutingFromCwd cwd).team_port = some p → 4000 ≤ p ∧ p ≤ 9999) ∧
    (hasDigitRun4 (strToLower (slashify cwd)).data = false →
      (parseRoutingFromCwd cwd).team_port = none) := by
  constructor
  · intro p hp
    by_cases hc : cwd = ""
    · rw [hc] at hp
      simp [parseRoutingFromCwd] at hp
    · simp only [parseRoutingFromCwd, if_neg hc] at hp
      cases hf : findHyphenPort (strToLower (slashify cwd)).data with
      | some r =>
        obtain ⟨g1, ds⟩ := r
        rw [hf] at hp
        simp only at hp
        split_ifs at hp with hrange
        · injection hp with hpp
          rw [← hpp]
          exact hrange
        · rw [studioProjectsFallback_team_port] at hp
          exact absurd hp (by simp)
      | none =>
        rw [hf] at hp
        rw [studioProjectsFallback_team_port] at hp
        exact absurd hp (by simp)
  · intro hrun
    by_cases hc : cwd = ""
    · rw [hc]
      rfl
    · simp only [parseRoutingFromCwd, if_neg hc]
      cases hf : findHyphenPort (strToLower (slashify cwd)).data with
      | some r => exact absurd (findHyphenPort_run4 hf) (by rw [hrun]; simp)
      | none => exact studioProjectsFallback_team_port _

/-! ### Facts about the session processor -/

theorem processPass_fold (env : StoreEnv) :
    ∀ (ws : List SessionWindow) (init : PassSummary),
      (ws.foldl
        (fun acc w =>
          { processed := acc.processed + (processWindow env w).processedDelta
            sessions := acc.sessions + (processWindow env w).sessionsDelta
            errors := acc.errors + (processWindow env w).errorsDelta })
        init) =
      { processed := init.processed + (ws.map (fun w => (processWindow env w).processedDelta)).sum
        sessions := init.sessions + (ws.map (fun w => (processWindow env w).sessionsDelta)).sum
        errors := init.errors + (ws.map (fun w => (processWindow env w).errorsDelta)).sum } := by
  intro ws
  induction ws with
  | nil => intro init; simp
  | cons w ws ih =>
    intro init
    simp only [List.foldl_cons, List.map_cons, List.sum_cons]
    rw [ih]
    simp only [PassSummary.mk.injEq]
    omega

/-- The pass summary is the componentwise sum of the per-window outcomes. -/
theorem processPass_sums (env : StoreEnv) (batch : List RawRecord) :
    (processPass env batch).processed
        = ((groupByTimeWindow batch).map (fun w => (processWindow env w).processedDelta)).sum ∧
      (processPass env batch).sessions
        = ((groupByTimeWindow batch).map (fun w => (processWindow env w).sessionsDelta)).sum ∧
      (processPass env batch).errors
        = ((groupByTimeWindow batch).map (fun w => (processWindow env w).errorsDelta)).sum := by
  unfold processPass
  rw [processPass_fold]
  simp

/-- C6: a window whose content is shorter than 100 characters is consumed
(all members marked, counted as processed) with no insert attempt and no
error. -/
theorem short_content_consumed_without_session (env : StoreEnv) (batch : List RawRecord)
    (w : SessionWindow) (hw : w ∈ groupByTimeWindow batch) (hlen : w.content.length < 100) :
    processWindow env w =
      { markedIds := markTranscriptsProcessed (w.transcripts.map (fun t => t.id))
        insertAttempts := []
        sessionsDelta := 0
        processedDelta := w.transcripts.length
        errorsDelta := 0 } ∧
    (processPass env batch).processed
      = ((groupByTimeWindow batch).map (fun w => (processWindow env w).processedDelta)).sum ∧
    (processPass env batch).errors
      = ((groupByTimeWindow batch).map (fun w => (processWindow env w).errorsDelta)).sum := by
  refine ⟨?_, (processPass_sums env batch).1, (processPass_sums env batch).2.2⟩
  unfold processWindow
  rw [if_pos hlen]

/-- C3: a duplicate-key insert failure is success: no error counted, all
member records marked and counted as processed. -/
theorem duplicate_key_insert_is_success (env : StoreEnv) (batch : List RawRecord)
    (w : SessionWindow) (e : DBError)
    (hw : w ∈ groupByTimeWindow batch)
    (hlen : ¬ w.content.length < 100)
    (hres : env.insertResult (sessionRowFor env w) = some e)
    (hdup : strIncludes e.message "duplicate key" = true) :
    (processWindow env w).errorsDelta = 0 ∧
    (processWindow env w).markedIds = markTranscriptsProcessed (w.transcripts.map (fun t => t.id)) ∧
    (processWindow env w).processedDelta = w.transcripts.length ∧
    (processPass env batch).processed
      = ((groupByTimeWindow batch).map (fun w => (processWindow env w).processedDelta)).sum ∧
    (processPass env batch).errors
      = ((groupByTimeWindow batch).map (fun w => (processWindow env w).errorsDelta)).sum := by
  have hne : e.message ≠ "" := by
    intro hcon
    rw [hcon] at hdup
    exact absurd hdup (by decide)
  have hstep : processWindow env w =
      { markedIds := markTranscriptsProcessed (w.transcripts.map (fun t => t.id))
        insertAttempts := [sessionRowFor env w]
        sessionsDelta := 1
        processedDelta := w.transcripts.length
        errorsDelta := 0 } := by
    unfold processWindow
    rw [if_neg hlen, hres]
    simp only
    rw [if_pos ⟨hne, hdup⟩]
  rw [hstep]
  exact ⟨rfl, rfl, rfl, (processPass_sums env batch).1, (processPass_sums env batch).2.2⟩

/-- C7: a non-duplicate insert failure counts one error and leaves every
member record unmarked (eligible for retry). -/
theorem non_duplicate_insert_error_retries (env : StoreEnv) (batch : List RawRecord)
    (w : SessionWindow) (e : DBError)
    (hw : w ∈ groupByTimeWindow batch)
    (hlen : ¬ w.content.length < 100)
    (hres : env.insertResult (sessionRowFor env w) = some e)
    (hdup : strIncludes e.message "duplicate key" = false) :
    (processWindow env w).errorsDelta = 1 ∧
    (processWindow env w).markedIds = [] ∧
    (processWindow env w).processedDelta = 0 ∧
    (processWindow env w).sessionsDelta = 0 ∧
    (processPass env batch).processed
      = ((groupByTimeWindow batch).map (fun w => (processWindow env w).processedDelta)).sum ∧
    (processPass env batch).errors
      = ((groupByTimeWindow batch).map (fun w => (processWindow env w).errorsDelta)).sum := by
  have hstep : processWindow env w =
      { markedIds := []
        insertAttempts := [sessionRowFor env w]
        sessionsDelta := 0
        processedDelta := 0
        errorsDelta := 1 } := by
    unfold processWindow
    rw [if_neg hlen, hres]
    simp only
    rw [if_neg (by
      intro hcon
      rw [hdup] at hcon
      exact absurd hcon.2 (by simp))]
  rw [hstep]
  exact ⟨rfl, rfl, rfl, rfl, (processPass_sums env batch).1, (processPass_sums env batch).2.2⟩

/-! ### Facts about the identity resolver -/

/-- `contentResolve` seen through the value of the pattern search (the
discriminant is generalised so that it is never evaluated on a symbolic
window). -/
theorem matchFirstPattern_of_find (H : String) (o : Option Pattern)
    (hf : PATTERNS.find? (fun pat => strIncludes H pat.needle) = o) :
    matchFirstPattern H =
      o.elim { slug := "unassigned", reason := "no_match", port := none }
        (fun pat => { slug := pat.slug, reason := "content:" ++ pat.needle, port := none }) := by
  unfold matchFirstPattern
  rw [hf]
  cases o <;> rfl

theorem contentResolve_of_find (win : SessionWindow) (o : Option Pattern)
    (hf : PATTERNS.find? (fun pat => strIncludes (contentHaystack win) pat.needle) = o) :
    contentResolve win =
      o.elim { slug := "unassigned", reason := "no_match", port := none }
        (fun pat => { slug := pat.slug, reason := "content:" ++ pat.needle, port := none }) :=
  matchFirstPattern_of_find (contentHaystack win) o hf

theorem contentResolve_char (win : SessionWindow) :
    (∃ pat, pat ∈ PATTERNS ∧ strIncludes (contentHaystack win) pat.needle = true ∧
      contentResolve win = ⟨pat.slug, "content:" ++ pat.needle, none⟩) ∨
    ((∀ pat ∈ PATTERNS, strIncludes (contentHaystack win) pat.needle = false) ∧
      contentResolve win = ⟨"unassigned", "no_match", none⟩) := by
  cases hf : PATTERNS.find? (fun pat => strIncludes (contentHaystack win) pat.needle) with
  | some pat =>
    left
    exact ⟨pat, List.mem_of_find?_eq_some hf, by simpa using List.find?_some hf,
      contentResolve_of_find win _ hf⟩
  | none =>
    right
    refine ⟨?_, contentResolve_of_find win _ hf⟩
    intro pat hpat
    have := List.find?_eq_none.1 hf pat hpat
    simpa using this

theorem content_take2_ne {x y : String} (hy : y.data.take 2 ≠ ['c', 'o']) :
    ("content:" ++ x) ≠ y := by
  intro h
  apply hy
  have hd : ("content:" ++ x).data = y.data := by rw [h]
  rw [String.data_append] at hd
  rw [← hd]
  rfl

theorem contentResolve_reason_ne (win : SessionWindow) :
    (contentResolve win).reason ≠ "transcript" ∧ (contentResolve win).reason ≠ "cwd" := by
  rcases contentResolve_char win with ⟨pat, _, _, heq⟩ | ⟨_, heq⟩ <;> rw [heq]
  · exact ⟨content_take2_ne (by decide), content_take2_ne (by decide)⟩
  · exact ⟨by decide, by decide⟩

/-- One-step unfolding of `resolveAfterLabel` at a present cwd. -/
theorem resolveAfterLabel_some_eq (win : SessionWindow) (c : String) :
    resolveAfterLabel win (some c) =
      if c ≠ "" ∧ isHomePath c = false then
        match (parseRoutingFromCwd c).project_slug with
        | some rs =>
          if rs ≠ "" then
            ({ slug := rs, reason := "cwd", port := (parseRoutingFromCwd c).team_port } : ResolvedSlug)
          else contentResolve win
        | none => contentResolve win
      else contentResolve win := rfl

theorem resolveAfterLabel_none_eq (win : SessionWindow) :
    resolveAfterLabel win none = contentResolve win := rfl

theorem resolveAfterLabel_cases (win : SessionWindow) (cwd : Option String) :
    resolveAfterLabel win cwd = contentResolve win ∨
    ∃ c rs, cwd = some c ∧ c ≠ "" ∧ isHomePath c = false ∧
      (parseRoutingFromCwd c).project_slug = some rs ∧ rs ≠ "" ∧
      resolveAfterLabel win cwd = ⟨rs, "cwd", (parseRoutingFromCwd c).team_port⟩ := by
  cases cwd with
  | none => left; exact resolveAfterLabel_none_eq win
  | some c =>
    rw [resolveAfterLabel_some_eq]
    by_cases hc : c ≠ "" ∧ isHomePath c = false
    · rw [if_pos hc]
      split
      · rename_i rs hr
        by_cases hrs : rs ≠ ""
        · rw [if_pos hrs]
          right
          exact ⟨c, rs, rfl, hc.1, hc.2, hr, hrs, rfl⟩
        · rw [if_neg hrs]
          left
          rfl
      · left; rfl
    · rw [if_neg hc]
      left
      rfl

theorem resolveAfterLabel_char (win : SessionWindow) (cwd : Option String) :
    (∃ c rs, cwd = some c ∧ c ≠ "" ∧ isHomePath c = false ∧
      (parseRoutingFromCwd c).project_slug = some rs ∧ rs ≠ "" ∧
      resolveAfterLabel win cwd = ⟨rs, "cwd", (parseRoutingFromCwd c).team_port⟩) ∨
    (∃ pat, pat ∈ PATTERNS ∧ strIncludes (contentHaystack win) pat.needle = true ∧
      resolveAfterLabel win cwd = ⟨pat.slug, "content:" ++ pat.needle, none⟩) ∨
    resolveAfterLabel win cwd = ⟨"unassigned", "no_match", none⟩ := by
  rcases resolveAfterLabel_cases win cwd with heq | ⟨c, rs, h1, h2, h3, h4, h5, heq⟩
  · rcases contentResolve_char win with ⟨pat, hm, hi, hc⟩ | ⟨_, hc⟩
    · right; left; exact ⟨pat, hm, hi, heq.trans hc⟩
    · right; right; exact heq.trans hc
  · left; exact ⟨c, rs, h1, h2, h3, h4, h5, heq⟩

/-- One-step unfolding of `resolveProjectSlug`. -/
theorem resolveProjectSlug_eq (win : SessionWindow) (cwd : Option String) :
    resolveProjectSlug win cwd =
      match win.project_slug with
      | some s =>
        if s ≠ "" ∧ LOW_TRUST_SLUGS.contains s = false then
          ({ slug := normalizeSlug s, reason := "transcript", port := win.team_port } : ResolvedSlug)
        else resolveAfterLabel win cwd
      | none => resolveAfterLabel win cwd := rfl

theorem resolveProjectSlug_of_slug_some {win : SessionWindow} {s : String}
    (hs : win.project_slug = some s) (cwd : Option String) :
    resolveProjectSlug win cwd =
      if s ≠ "" ∧ LOW_TRUST_SLUGS.contains s = false then
        ({ slug := normalizeSlug s, reason := "transcript", port := win.team_port } : ResolvedSlug)
      else resolveAfterLabel win cwd := by
  rw [resolveProjectSlug_eq, hs]

theorem resolveProjectSlug_of_slug_none {win : SessionWindow}
    (hs : win.project_slug = none) (cwd : Option String) :
    resolveProjectSlug win cwd = resolveAfterLabel win cwd := by
  rw [resolveProjectSlug_eq, hs]

/-- C1: a low-trust caller-supplied slug is never used through the trusted
branch, and with no usable cwd routing and no content match the sentinel
`unassigned` identity (with no port) results. -/
theorem lowTrust_slug_never_trusted (win : SessionWindow) (s : String)
    (hs : win.project_slug = some s) (hlow : LOW_TRUST_SLUGS.contains s = true) :
    (∀ cwd, (resolveProjectSlug win cwd).reason ≠ "transcript") ∧
    ((∀ c, extractCwdFromContent win.content = some c →
        isHomePath c = true ∨ (parseRoutingFromCwd c).project_slug = none) →
      (∀ pat ∈ PATTERNS, strIncludes (contentHaystack win) pat.needle = false) →
      resolveProjectSlug win (extractCwdFromContent win.content) =
        ⟨"unassigned", "no_match", none⟩) := by
  have hres : ∀ cwd, resolveProjectSlug win cwd = resolveAfterLabel win cwd := by
    intro cwd
    rw [resolveProjectSlug_of_slug_some hs, if_neg]
    intro hcon
    rw [hlow] at hcon
    exact absurd hcon.2 (by simp)
  constructor
  · intro cwd
    rw [hres cwd]
    rcases resolveAfterLabel_cases win cwd with heq | ⟨c, rs, _, _, _, _, _, heq⟩ <;> rw [heq]
    · exact (contentResolve_reason_ne win).1
    · simp
  · intro hcwd hpats
    have hcr : contentResolve win = ⟨"unassigned", "no_match", none⟩ := by
      rcases contentResolve_char win with ⟨pat, hmem, hinc, _⟩ | ⟨_, heq⟩
      · rw [hpats pat hmem] at hinc
        exact absurd hinc (by simp)
      · exact heq
    rw [hres _]
    rcases resolveAfterLabel_cases win (extractCwdFromContent win.content)
      with heq | ⟨c, rs, hc, hcne, hhome, hr, hrs, heq⟩
    · rw [heq, hcr]
    · exfalso
      rcases hcwd c hc with hh | hh
      · rw [hh] at hhome
        exact absurd hhome (by simp)
      · rw [hh] at hr
        exact absurd hr (by simp)

theorem chListStarts_cons_inv {a : Char} {pat s : List Char}
    (h : chListStarts (a :: pat) s = true) :
    ∃ s', s = a :: s' ∧ chListStarts pat s' = true := by
  cases s with
  | nil => simp [chListStarts] at h
  | cons b s' =>
    simp only [chListStarts, Bool.and_eq_true, decide_eq_true_eq] at h
    exact ⟨s', by rw [h.1], h.2⟩

theorem chListHas_of_starts : ∀ {pat s : List Char}, chListStarts pat s = true →
    chListHas pat s = true := by
  intro pat s h
  cases s with
  | nil =>
    cases pat with
    | nil => rfl
    | cons a as => simp [chListStarts] at h
  | cons c rest =>
    simp only [chListHas, Bool.or_eq_true]
    exact Or.inl h

theorem chListHas_cons {pat : List Char} {c : Char} {rest : List Char}
    (h : chListHas pat rest = true) : chListHas pat (c :: rest) = true := by
  simp only [chListHas, Bool.or_eq_true]
  exact Or.inr h

theorem winDriveUsers_includes {c : String} (h : winDriveUsers c = true) :
    strIncludes c "\\users\\" = true := by
  unfold winDriveUsers at h
  cases hd : c.data with
  | nil => rw [hd] at h; simp at h
  | cons ch rest =>
    rw [hd] at h
    simp only [Bool.and_eq_true] at h
    have hstart : chListStarts (":\\users\\").data rest = true := h.2
    rw [show (":\\users\\" : String).data = ':' :: ("\\users\\" : String).data from rfl] at hstart
    rcases chListStarts_cons_inv hstart with ⟨s', hs', hrest⟩
    unfold strIncludes
    rw [hd, hs']
    exact chListHas_cons (chListHas_cons (chListHas_of_starts hrest))

/-- C5: `isHomePath` is exactly the four home-directory markers of the spec
(the drive-letter regex adds nothing), and a home-path cwd never produces the
path-derived (`cwd`) resolution. -/
theorem home_path_never_path_derived :
    (∀ p : String, isHomePath p = true ↔
      (p ≠ "" ∧ (strIncludes (strToLower p) "/home/" = true ∨ strIncludes (strToLower p) "/root/" = true ∨
        strEndsWith (strToLower p) "/root" = true ∨ strIncludes (strToLower p) "\\users\\" = true))) ∧
    (∀ (win : SessionWindow) (c : String), isHomePath c = true →
      (resolveProjectSlug win (some c)).reason ≠ "cwd") := by
  constructor
  · intro p
    constructor
    · intro h
      unfold isHomePath at h
      by_cases hp : p = ""
      · rw [if_pos hp] at h
        exact absurd h (by simp)
      · rw [if_neg hp] at h
        refine ⟨hp, ?_⟩
        simp only [Bool.or_eq_true] at h
        rcases h with ((((h | h) | h) | h) | h)
        · exact Or.inl h
        · exact Or.inr (Or.inl h)
        · exact Or.inr (Or.inr (Or.inl h))
        · exact Or.inr (Or.inr (Or.inr h))
        · exact Or.inr (Or.inr (Or.inr (winDriveUsers_includes h)))
    · rintro ⟨hp, hdisj⟩
      unfold isHomePath
      rw [if_neg hp]
      simp only [Bool.or_eq_true]
      rcases hdisj with h | h | h | h
      · exact Or.inl (Or.inl (Or.inl (Or.inl h)))
      · exact Or.inl (Or.inl (Or.inl (Or.inr h)))
      · exact Or.inl (Or.inl (Or.inr h))
      · exact Or.inl (Or.inr h)
  · intro win c hhome
    have hafter : (resolveAfterLabel win (some c)).reason ≠ "cwd" := by
      rcases resolveAfterLabel_cases win (some c)
        with heq | ⟨c', rs, hc', hcne, hhome', hr, hrs, heq⟩
      · rw [heq]
        exact (contentResolve_reason_ne win).2
      · exfalso
        injection hc' with hcc
        rw [← hcc] at hhome'
        rw [hhome] at hhome'
        exact absurd hhome' (by simp)
    cases hps : win.project_slug with
    | some s =>
      rw [resolveProjectSlug_of_slug_some hps]
      by_cases hcond : s ≠ "" ∧ LOW_TRUST_SLUGS.contains s = false
      · rw [if_pos hcond]
        simp
      · rw [if_neg hcond]
        exact hafter
    | none =>
      rw [resolveProjectSlug_of_slug_none hps]
      exact hafter

/-- C9 (amended): the `reason` of every resolution is exactly one of
`transcript` (trusted caller slug), `cwd` (path-derived), `content:<needle>`
(content-derived) or `no_match` (the `unassigned` sentinel). -/
theorem reason_values_exact (win : SessionWindow) (cwd : Option String) :
    (∃ s, win.project_slug = some s ∧ s ≠ "" ∧ LOW_TRUST_SLUGS.contains s = false ∧
      resolveProjectSlug win cwd = ⟨normalizeSlug s, "transcript", win.team_port⟩) ∨
    (∃ c rs, cwd = some c ∧ c ≠ "" ∧ isHomePath c = false ∧
      (parseRoutingFromCwd c).project_slug = some rs ∧ rs ≠ "" ∧
      resolveProjectSlug win cwd = ⟨rs, "cwd", (parseRoutingFromCwd c).team_port⟩) ∨
    (∃ pat, pat ∈ PATTERNS ∧ strIncludes (contentHaystack win) pat.needle = true ∧
      resolveProjectSlug win cwd = ⟨pat.slug, "content:" ++ pat.needle, none⟩) ∨
    resolveProjectSlug win cwd = ⟨"unassigned", "no_match", none⟩ := by
  have hafter : resolveProjectSlug win cwd = resolveAfterLabel win cwd →
      (∃ c rs, cwd = some c ∧ c ≠ "" ∧ isHomePath c = false ∧
        (parseRoutingFromCwd c).project_slug = some rs ∧ rs ≠ "" ∧
        resolveProjectSlug win cwd = ⟨rs, "cwd", (parseRoutingFromCwd c).team_port⟩) ∨
      (∃ pat, pat ∈ PATTERNS ∧ strIncludes (contentHaystack win) pat.needle = true ∧
        resolveProjectSlug win cwd = ⟨pat.slug, "content:" ++ pat.needle, none⟩) ∨
      resolveProjectSlug win cwd = ⟨"unassigned", "no_match", none⟩ := by
    intro heq
    rcases resolveAfterLabel_char win cwd with ⟨c, rs, h1, h2, h3, h4, h5, h6⟩ | ⟨pat, h1, h2, h3⟩ | h
    · exact Or.inl ⟨c, rs, h1, h2, h3, h4, h5, heq.trans h6⟩
    · exact Or.inr (Or.inl ⟨pat, h1, h2, heq.trans h3⟩)
    · exact Or.inr (Or.inr (heq.trans h))
  cases hps : win.project_slug with
  | some s =>
    by_cases hcond : s ≠ "" ∧ LOW_TRUST_SLUGS.contains s = false
    · left
      refine ⟨s, rfl, hcond.1, hcond.2, ?_⟩
      rw [resolveProjectSlug_of_slug_some hps, if_pos hcond]
    · have := hafter (by rw [resolveProjectSlug_of_slug_some hps, if_neg hcond])
      exact Or.inr this
  | none =>
    have := hafter (resolveProjectSlug_of_slug_none hps cwd)
    exact Or.inr this

/-! ### Aggregator claims -/

/-- C2 (amended): every record's window carries
`floor(ts / TIME_WINDOW_MS) * TIME_WINDOW_MS` as its start, and two batch
records share a window exactly when their colon-joined key strings agree
(agreement of the defaulted field tuple is sufficient but, because the
fields are joined with `:` into one string, not necessary). -/
theorem window_start_and_key_grouping (l : List RawRecord) :
    (∀ w ∈ groupByTimeWindow l, ∀ t ∈ w.transcripts,
      w.windowStart = (recordTs t).fdiv TIME_WINDOW_MS * TIME_WINDOW_MS) ∧
    (∀ t₁ ∈ l, ∀ t₂ ∈ l,
      ((∃ w ∈ groupByTimeWindow l, t₁ ∈ w.transcripts ∧ t₂ ∈ w.transcripts) ↔
        windowKey t₁ = windowKey t₂)) := by
  constructor
  · intro w hw t ht
    rcases group_mem_char hw with ⟨k, t₀, ms, hf, hb⟩
    subst hb
    rw [buildW_transcripts] at ht
    have hkeys := filter_key_mem hf
    have hkt : windowKey t = k := hkeys t ht
    have hkt₀ : windowKey t₀ = k := hkeys t₀ (List.mem_cons_self _ _)
    have hws := (windowKey_eq_parts (hkt₀.trans hkt.symm)).1
    rw [(buildW_headers t₀ ms).1, hws]
    rfl
  · intro t₁ h₁ t₂ h₂
    constructor
    · rintro ⟨w, hw, hm₁, hm₂⟩
      rcases group_mem_transcripts hw with ⟨k, _, _, hkeys⟩
      rw [hkeys t₁ hm₁, hkeys t₂ hm₂]
    · intro hk
      rcases group_mem_exists h₁ with ⟨w, hw, hm₁⟩
      refine ⟨w, hw, hm₁, ?_⟩
      rcases group_mem_transcripts hw with ⟨k, htr, _, hkeys⟩
      have hk₂ : windowKey t₂ = k := hk.symm.trans (hkeys t₁ hm₁)
      rw [htr]
      exact List.mem_filter.2 ⟨h₂, by simp [hk₂]⟩

/-- C10: a window's `project_slug` / `project_folder` / `team_port` are those
of the first record iterated into it (`null` when that record lacks a truthy
value); later members are ignored. -/
theorem window_fields_from_first_record {l : List RawRecord} {w : SessionWindow}
    (hw : w ∈ groupByTimeWindow l) :
    ∃ t₀ rest, w.transcripts = t₀ :: rest ∧
      w.project_slug = jsOptStr t₀.project_slug ∧
      w.project_folder = jsOptStr t₀.project_folder ∧
      w.team_port = jsOptInt t₀.team_port := by
  rcases group_mem_char hw with ⟨k, t₀, ms, hf, hb⟩
  subst hb
  exact ⟨t₀, ms, buildW_transcripts _ _, (buildW_headers t₀ ms).2.2.2.1,
    (buildW_headers t₀ ms).2.2.2.2.1, (buildW_headers t₀ ms).2.2.2.2.2⟩

/-- C8 (amended): permuting the batch matches every window with one of the
permuted run having the same member multiset, window start, stored team port
and earliest/latest timestamps; the content is the members' contents (each
with a trailing newline) concatenated in iteration order, so it differs at
most in that order.  Fields copied from the first member
(`project_slug`, `project_folder`, and under key collisions `source_type` /
`session_file`) may differ. -/
theorem aggregator_perm_invariance {l l' : List RawRecord} (hp : l.Perm l') :
    ∀ w ∈ groupByTimeWindow l, ∃ w' ∈ groupByTimeWindow l',
      w.transcripts.Perm w'.transcripts ∧
      w.windowStart = w'.windowStart ∧
      w.team_port = w'.team_port ∧
      w.earliest_ts = w'.earliest_ts ∧
      w.latest_ts = w'.latest_ts ∧
      w.content = contentConcat w.transcripts ∧
      w'.content = contentConcat w'.transcripts := by
  intro w hw
  rcases group_mem_char hw with ⟨k, t, ms, hf, hb⟩
  have hpf : (l.filter (fun t => windowKey t == k)).Perm
      (l'.filter (fun t => windowKey t == k)) := hp.filter _
  rw [hf] at hpf
  cases hf' : l'.filter (fun t => windowKey t == k) with
  | nil =>
    rw [hf'] at hpf
    have := hpf.length_eq
    simp at this
  | cons t' ms' =>
    rw [hf'] at hpf
    refine ⟨buildW t' ms', group_lookup_mem hf', ?_⟩
    subst hb
    have hkt : windowKey t = k := filter_key_mem hf t (List.mem_cons_self _ _)
    have hkt' : windowKey t' = k := filter_key_mem hf' t' (List.mem_cons_self _ _)
    have hkk : windowKey t = windowKey t' := hkt.trans hkt'.symm
    refine ⟨?_, ?_, ?_, ?_, ?_, ?_, ?_⟩
    · rw [buildW_transcripts, buildW_transcripts]
      exact hpf
    · rw [(buildW_headers t ms).1, (buildW_headers t' ms').1]
      exact (windowKey_eq_parts hkk).1
    · rw [(buildW_headers t ms).2.2.2.2.2, (buildW_headers t' ms').2.2.2.2.2]
      exact jsOptInt_eq_of_keyTeamPort (windowKey_eq_parts hkk).2
    · rw [buildW_earliest, buildW_earliest]
      exact foldl_min_head_perm hpf
    · rw [buildW_latest, buildW_latest]
      exact foldl_max_head_perm hpf
    · rw [buildW_content, buildW_transcripts]
    · rw [buildW_content, buildW_transcripts]

/-! ### Counterexamples -/

/-- C2 counterexample: two records whose defaulted `(source_type,
session_file)` differ land in one window, because the colon-joined key
strings collide. -/
theorem windowKey_tuple_collision_cex :
    keySourceType caColl ≠ keySourceType cbColl ∧
    keySourceName caColl ≠ keySourceName cbColl ∧
    keyTeamPort caColl = keyTeamPort cbColl ∧
    recordWindowStart caColl = recordWindowStart cbColl ∧
    windowKey caColl = windowKey cbColl ∧
    (groupByTimeWindow [caColl, cbColl]).map (fun w => w.transcripts) = [[caColl, cbColl]] := by
  decide

/-- C4 counterexample: a hyphen-preceded run of six digits starting with `0`
produces an accepted port (its greedy five-digit prefix `04500` parses to
4500 ∈ [4000, 9999]). -/
theorem six_digit_run_port_cex :
    parseRoutingFromCwd "/srv/foo-045000" =
      { project_slug := some "foo-04500", team_port := some 4500 } ∧
    ("/srv/foo-045000" : String).data = ("/srv/foo-" : String).data ++ ("045000" : String).data ∧
    ("045000" : String).data.all Char.isDigit = true ∧
    ("045000" : String).data.length = 6 := by
  decide

/-- C8 counterexample: reordering the batch changes a window's
`project_slug` (a first-record field), not merely its content order. -/
theorem aggregator_order_field_cex :
    [cpSlugA, cqSlugB].Perm [cqSlugB, cpSlugA] ∧
    (groupByTimeWindow [cpSlugA, cqSlugB]).map (fun w => w.project_slug) = [some "alpha"] ∧
    (groupByTimeWindow [cqSlugB, cpSlugA]).map (fun w => w.project_slug) = [some "beta"] ∧
    (groupByTimeWindow [cpSlugA, cqSlugB]).map (fun w => w.transcripts) = [[cpSlugA, cqSlugB]] ∧
    (groupByTimeWindow [cqSlugB, cpSlugA]).map (fun w => w.transcripts) = [[cqSlugB, cpSlugA]] := by
  exact ⟨List.Perm.swap cqSlugB cpSlugA [], by decide, by decide, by decide, by decide⟩

/-- C9 counterexample: a trusted caller slug resolves with reason
`transcript`, which is none of the four values the claim names. -/
theorem reason_values_cex :
    cwTrusted.project_slug = some "ai-jen" ∧
    LOW_TRUST_SLUGS.contains "ai-jen" = false ∧
    (resolveProjectSlug cwTrusted none).reason = "transcript" ∧
    (resolveProjectSlug cwTrusted none).reason ≠ "trusted-label" ∧
    (resolveProjectSlug cwTrusted none).reason ≠ "path-derived" ∧
    (resolveProjectSlug cwTrusted none).reason ≠ "content-derived" ∧
    (resolveProjectSlug cwTrusted none).reason ≠ "unresolved" := by
  decide

/-! ### Witnesses -/

theorem lowTrust_slug_never_trusted_witness :
    (resolveProjectSlug cwLowTrust none).reason ≠ "transcript" ∧
    resolveProjectSlug cwLowTrust (extractCwdFromContent cwLowTrust.content) =
      ⟨"unassigned", "no_match", none⟩ :=
  ⟨(lowTrust_slug_never_trusted cwLowTrust "ai-team" rfl (by decide)).1 none,
   (lowTrust_slug_never_trusted cwLowTrust "ai-team" rfl (by decide)).2
     (by
       intro c hc
       rw [show extractCwdFromContent cwLowTrust.content = none from by decide] at hc
       exact Option.noConfusion hc)
     (by decide)⟩

theorem window_start_and_key_grouping_witness :
    (buildW caColl []).windowStart = (recordTs caColl).fdiv TIME_WINDOW_MS * TIME_WINDOW_MS ∧
    (∃ w ∈ groupByTimeWindow [caColl, cbColl],
      caColl ∈ w.transcripts ∧ cbColl ∈ w.transcripts) :=
  ⟨(window_start_and_key_grouping [caColl]).1 (buildW caColl []) (by decide) caColl (by decide),
   ((window_start_and_key_grouping [caColl, cbColl]).2 caColl (by decide) cbColl (by decide)).2
     (by decide)⟩

theorem duplicate_key_insert_is_success_witness :
    (processWindow envDup (buildW crLong [])).errorsDelta = 0 ∧
    (processWindow envDup (buildW crLong [])).processedDelta = (buildW crLong []).transcripts.length :=
  ⟨(duplicate_key_insert_is_success envDup [crLong] (buildW crLong []) dupErr
      (by decide) (by decide) rfl (by decide)).1,
   (duplicate_key_insert_is_success envDup [crLong] (buildW crLong []) dupErr
      (by decide) (by decide) rfl (by decide)).2.2.1⟩

theorem port_range_and_short_runs_witness :
    ((4000 : Int) ≤ 5401 ∧ (5401 : Int) ≤ 9999) ∧
    (parseRoutingFromCwd "/srv/projects/alpha").team_port = none :=
  ⟨(port_range_and_short_runs "/a/b-5401").1 5401 (by decide),
   (port_range_and_short_runs "/srv/projects/alpha").2 (by decide)⟩

theorem home_path_never_path_derived_witness :
    (resolveProjectSlug cwLowTrust (some "/home/bob/x")).reason ≠ "cwd" :=
  home_path_never_path_derived.2 cwLowTrust "/home/bob/x" (by decide)

theorem short_content_consumed_without_session_witness :
    processWindow envNone (buildW crShort []) =
      { markedIds := markTranscriptsProcessed ((buildW crShort []).transcripts.map (fun t => t.id))
        insertAttempts := []
        sessionsDelta := 0
        processedDelta := (buildW crShort []).transcripts.length
        errorsDelta := 0 } :=
  (short_content_consumed_without_session envNone [crShort] (buildW crShort [])
    (by decide) (by decide)).1

theorem non_duplicate_insert_error_retries_witness :
    (processWindow envErr (buildW crLong [])).errorsDelta = 1 ∧
    (processWindow envErr (buildW crLong [])).markedIds = [] :=
  ⟨(non_duplicate_insert_error_retries envErr [crLong] (buildW crLong []) otherErr
      (by decide) (by decide) rfl (by decide)).1,
   (non_duplicate_insert_error_retries envErr [crLong] (buildW crLong []) otherErr
      (by decide) (by decide) rfl (by decide)).2.1⟩

theorem aggregator_perm_invariance_witness :
    ∃ w' ∈ groupByTimeWindow [cqSlugB, cpSlugA],
      (buildW cpSlugA [cqSlugB]).transcripts.Perm w'.transcripts ∧
      (buildW cpSlugA [cqSlugB]).windowStart = w'.windowStart ∧
      (buildW cpSlugA [cqSlugB]).team_port = w'.team_port ∧
      (buildW cpSlugA [cqSlugB]).earliest_ts = w'.earliest_ts ∧
      (buildW cpSlugA [cqSlugB]).latest_ts = w'.latest_ts ∧
      (buildW cpSlugA [cqSlugB]).content = contentConcat (buildW cpSlugA [cqSlugB]).transcripts ∧
      w'.content = contentConcat w'.transcripts :=
  aggregator_perm_invariance (List.Perm.swap cqSlugB cpSlugA [])
    (buildW cpSlugA [cqSlugB]) (by decide)

theorem window_fields_from_first_record_witness :
    ∃ t₀ rest, (buildW cpSlugA [cqSlugB]).transcripts = t₀ :: rest ∧
      (buildW cpSlugA [cqSlugB]).project_slug = jsOptStr t₀.project_slug ∧
      (buildW cpSlugA [cqSlugB]).project_folder = jsOptStr t₀.project_folder ∧
      (buildW cpSlugA [cqSlugB]).team_port = jsOptInt t₀.team_port :=
  @window_fields_from_first_record [cpSlugA, cqSlugB] (buildW cpSlugA [cqSlugB]) (by decide)

/-- The fuel of `cwdScanAux` is irrelevant once it covers the input length. -/
theorem cwdScanAux_congr : ∀ (f₁ f₂ : Nat) (cs : List Char), cs.length ≤ f₁ → cs.length ≤ f₂ →
    cwdScanAux f₁ cs = cwdScanAux f₂ cs := by
  intro f₁
  induction f₁ using Nat.strong_induction_on with
  | _ f₁ ih =>
    intro f₂ cs h₁ h₂
    cases cs with
    | nil => cases f₁ <;> cases f₂ <;> rfl
    | cons c rest =>
      cases f₁ with
      | zero => simp at h₁
      | succ f₁' =>
        cases f₂ with
        | zero => simp at h₂
        | succ f₂' =>
          simp only [List.length_cons] at h₁ h₂
          cases hm : cwdMatchAt (c :: rest) with
          | some pr =>
            obtain ⟨path, after⟩ := pr
            have hlt := cwdMatchAt_rest_lt _ _ _ hm
            simp only [List.length_cons] at hlt
            have e₁ : cwdScanAux (f₁' + 1) (c :: rest) = path :: cwdScanAux f₁' after := by
              simp only [cwdScanAux]
              rw [hm]
            have e₂ : cwdScanAux (f₂' + 1) (c :: rest) = path :: cwdScanAux f₂' after := by
              simp only [cwdScanAux]
              rw [hm]
            rw [e₁, e₂]
            rw [ih f₁' (by omega) f₂' after (by omega) (by omega)]
          | none =>
            have e₁ : cwdScanAux (f₁' + 1) (c :: rest) = cwdScanAux f₁' rest := by
              simp only [cwdScanAux]
              rw [hm]
            have e₂ : cwdScanAux (f₂' + 1) (c :: rest) = cwdScanAux f₂' rest := by
              simp only [cwdScanAux]
              rw [hm]
            rw [e₁, e₂]
            exact ih f₁' (by omega) f₂' rest (by omega) (by omega)

/-- `cwdScan` satisfies the natural (left-to-right, resume-after-match)
recursion of a JS global-regex scan. -/
theorem cwdScan_unfold (c : Char) (rest : List Char) :
    cwdScan (c :: rest) =
      match cwdMatchAt (c :: rest) with
      | some (path, after) => path :: cwdScan after
      | none => cwdScan rest := by
  cases hm : cwdMatchAt (c :: rest) with
  | some pr =>
    obtain ⟨path, after⟩ := pr
    have hlt := cwdMatchAt_rest_lt _ _ _ hm
    have e₁ : cwdScan (c :: rest) = path :: cwdScanAux rest.length after := by
      show cwdScanAux (c :: rest).length (c :: rest) = _
      simp only [List.length_cons, cwdScanAux]
      rw [hm]
    rw [e₁]
    show _ = path :: cwdScan after
    rw [show cwdScan after = cwdScanAux after.length after from rfl]
    rw [cwdScanAux_congr rest.length after.length after
      (by simp only [List.length_cons] at hlt; omega) le_rfl]
  | none =>
    have e₁ : cwdScan (c :: rest) = cwdScanAux rest.length rest := by
      show cwdScanAux (c :: rest).length (c :: rest) = _
      simp only [List.length_cons, cwdScanAux]
      rw [hm]
    rw [e₁]
    rfl
